import Mathlib

/-!
# keystoneLight: a replicated in-memory key-value store

A shallow embedding of `server/main.go` (namespace `Server`) and of
`client/main.go` (namespace `Client`).  A node is a record of its listen
address, its store and its peer registry.  The cluster is a `World`: the
state of the process at every address plus the log of the outbound calls
issued so far.  The handlers of a node are functions on the world that act
on the node at `self`; the outbound calls they make are answered by an
environment `Env` (dial results and transport faults) and, when delivered,
run the handler of the node at the dialled address.

Every address has a process state in the world; whether the process there
answers is up to the environment, which may refuse or lose any call.  An
address string stands for one process: two spellings of the address of one
process (`localhost:1989`, `127.0.0.1:1989`) are two processes here.

Go maps are association lists.  The order of a `range` over a Go map is
unspecified: the list order stands for it, so a statement about every list
is a statement about every iteration order.  Handlers run one at a time
(no interleaving), timeouts and log output are not modelled.
-/

namespace Server

/-! ## Go library functions and maps -/

/-- Go `strings.Contains`: `substr` occurs in `s`. -/
def strings.Contains (s substr : String) : Bool :=
  s.toList.tails.any (fun t => substr.toList.isPrefixOf t)

/-- Go `m[k]` with the "comma ok" result: the value stored for `k`, if any. -/
def mapGet {β : Type} : List (String × β) → String → Option β
  | [], _ => none
  | (k', v) :: rest, k => if k' = k then some v else mapGet rest k

/-- Go `m[k] = v`: overwrite the entry of `k`, or add one. -/
def mapSet {β : Type} : List (String × β) → String → β → List (String × β)
  | [], k, v => [(k, v)]
  | (k', v') :: rest, k, v =>
    if k' = k then (k, v) :: rest else (k', v') :: mapSet rest k v

/-- Go `delete(m, k)`. -/
def mapDelete {β : Type} (m : List (String × β)) (k : String) : List (String × β) :=
  m.filter (fun e => e.1 ≠ k)

/-- A Go map has one entry for each key. -/
def mapWF {β : Type} (m : List (String × β)) : Prop :=
  (m.map Prod.fst).Nodup

instance {β : Type} (m : List (String × β)) : Decidable (mapWF m) := by
  unfold mapWF; infer_instance

/-! ## Data model -/

/-- Modelled from the spec: `pb.KeystoneClient` (generated gRPC code, not in
the sources), the RPC handle of the peer registry.  A handle is a client stub
on the connection `conn` that `grpc.Dial` opened to the address `target`. -/
structure KeystoneClient where
  target : String
  conn : Nat
deriving DecidableEq, Repr

/-- Modelled from the spec: `pb.ClusterInfo` (generated gRPC code, not in the
sources), the ClusterView: the responding node's store contents paired with
its list of known peer addresses. -/
structure ClusterInfo where
  Dstore : List (String × String)
  Peers : List String
deriving DecidableEq, Repr

/-- The Keystone server (`type node struct`); `nil` handles are `none`. -/
structure node where
  address : String
  dstore : List (String × String)
  peers : List (String × Option KeystoneClient)
deriving DecidableEq, Repr

/-- An outbound action of a node: a `grpc.Dial` or an RPC on a handle. -/
inductive Call where
  | Dial (address : String)
  | ServerWrite (peer : KeystoneClient) (key value : String)
  | GetClusterInfo (peer : KeystoneClient)
  | Join (peer : KeystoneClient) (address : String)
deriving DecidableEq, Repr

/-- A transport failure of an RPC: the error text the caller sees, and whether
the request still reached the peer's handler (a reply lost to a timeout). -/
structure Fault where
  msg : String
  delivered : Bool
deriving DecidableEq, Repr

/-- The answers of the network: `dial caller address` is the result of
`grpc.Dial(address)` issued by the node at `caller` (a connection or an error
text); `fault caller call` is the transport failure of `call` issued by
`caller`, `none` when the call goes through. -/
structure Env where
  dial : String → String → Except String Nat
  fault : String → Call → Option Fault

/-- The cluster: the state of the process at each address and the outbound
calls issued so far, oldest first, each with the address of its caller. -/
structure World where
  nodes : String → node
  log : List (String × Call)

/-- Replace the state of the node at `a`. -/
def World.setNode (w : World) (a : String) (n : node) : World :=
  { w with nodes := fun x => if x = a then n else w.nodes x }

/-- Append an outbound call of `caller` to the log. -/
def World.record (w : World) (caller : String) (c : Call) : World :=
  { w with log := w.log ++ [(caller, c)] }

/-! ## Handlers without outbound RPCs -/

/-- The fatal exit of `failOnErr`: `some` when `err` is not nil, `none` otherwise.
Only whether the process exits is modelled.  The text stands for what
`log.Fatalf(msg, err)` prints (`msg` used as the format, followed by the rendering
that Go gives to the extra argument `err`) and is not that output. -/
def failOnErr (msg : String) (err : Option String) : Option String :=
  match err with
  | some e => some (msg ++ ": " ++ e)
  | none => none

/-- Handle client reads: the value stored for `key` (the empty string when
absent) and a nil error. -/
def Read (w : World) (self : String) (key : String) : World × String × Option String :=
  (w, (mapGet (w.nodes self).dstore key).getD "", none)

/-- Handle writes from another node. -/
def ServerWrite (w : World) (self : String) (key value : String) : World × Option String :=
  let n := w.nodes self
  (w.setNode self { n with dstore := mapSet n.dstore key value }, none)

/-- Fetch the keys from a map. -/
def keys (m : List (String × Option KeystoneClient)) : List String :=
  m.map Prod.fst

/-- Get information about the current state of the cluster. -/
def GetClusterInfo (w : World) (self : String) : World × ClusterInfo × Option String :=
  let n := w.nodes self
  (w, { Dstore := n.dstore, Peers := keys n.peers }, none)

/-- Connect to a peer node and create a client. -/
def connectPeer (w : World) (self : String) (address : String) (env : Env) :
    World × Except String KeystoneClient :=
  let w1 := w.record self (Call.Dial address)
  match env.dial self address with
  | .error err => (w1, .error err)
  | .ok conn => (w1, .ok { target := address, conn := conn })

/-- Another node is joining our cluster. -/
def Join (w : World) (self : String) (address : String) (env : Env) : World × Option String :=
  match connectPeer w self address env with
  | (w1, .error err) => (w1, some err)
  | (w1, .ok client) =>
    let n := w1.nodes self
    (w1.setNode self { n with peers := mapSet n.peers address (some client) }, none)

/-! ## Client stubs: an RPC on a handle -/

/-- The call `peer.ServerWrite(ctx, in)` issued by `caller`: the returned error. -/
def KeystoneClient.ServerWrite (peer : KeystoneClient) (w : World) (caller : String)
    (key value : String) (env : Env) : World × Option String :=
  let w1 := w.record caller (Call.ServerWrite peer key value)
  match env.fault caller (Call.ServerWrite peer key value) with
  | none => Server.ServerWrite w1 peer.target key value
  | some f =>
    ((if f.delivered then (Server.ServerWrite w1 peer.target key value).1 else w1), some f.msg)

/-- The call `peer.GetClusterInfo(ctx, &pb.Nothing{})` issued by `caller`. -/
def KeystoneClient.GetClusterInfo (peer : KeystoneClient) (w : World) (caller : String)
    (env : Env) : World × Except String ClusterInfo :=
  let w1 := w.record caller (Call.GetClusterInfo peer)
  match env.fault caller (Call.GetClusterInfo peer) with
  | none =>
    match Server.GetClusterInfo w1 peer.target with
    | (w2, info, none) => (w2, .ok info)
    | (w2, _, some err) => (w2, .error err)
  | some f =>
    ((if f.delivered then (Server.GetClusterInfo w1 peer.target).1 else w1), .error f.msg)

/-- The call `peer.Join(ctx, &pb.ServerInfo{Address: address})` issued by `caller`. -/
def KeystoneClient.Join (peer : KeystoneClient) (w : World) (caller : String)
    (address : String) (env : Env) : World × Option String :=
  let w1 := w.record caller (Call.Join peer address)
  match env.fault caller (Call.Join peer address) with
  | none => Server.Join w1 peer.target address env
  | some f =>
    ((if f.delivered then (Server.Join w1 peer.target address env).1 else w1), some f.msg)

/-! ## Replication -/

/-- The fan-out loop of `Write` over the registry entries still to visit. -/
def Write.range (self key value : String) (env : Env) :
    List (String × Option KeystoneClient) → World → World × Option String
  | [], w => (w, none)
  | (_, none) :: rest, w => Write.range self key value env rest w
  | (addr, some peer) :: rest, w =>
    match peer.ServerWrite w self key value env with
    | (w1, some err) =>
      if strings.Contains err "connect: connection refused" then
        let n := w1.nodes self
        Write.range self key value env rest
          (w1.setNode self { n with peers := mapDelete n.peers addr })
      else (w1, some err)
    | (w1, none) => Write.range self key value env rest w1

/-- Handle client writes. -/
def Write (w : World) (self : String) (key value : String) (env : Env) : World × Option String :=
  match Write.range self key value env (w.nodes self).peers w with
  | (w1, some err) => (w1, some err)
  | (w1, none) =>
    let n := w1.nodes self
    (w1.setNode self { n with dstore := mapSet n.dstore key value }, none)

/-! ## Membership -/

/-- The loop of `joinCluster` over the peer addresses of the fetched view; the
second component is the fatal exit, if any. -/
def joinCluster.range (self : String) (env : Env) : List String → World → World × Option String
  | [], w => (w, none)
  | addr :: rest, w =>
    let n := w.nodes self
    if addr = n.address then joinCluster.range self env rest w
    else
      let connected : World × Option String :=
        match mapGet n.peers addr with
        | some _ => (w, none)
        | none =>
          match connectPeer w self addr env with
          | (w1, .error err) => (w1, failOnErr ("Failed connect to peer: " ++ addr) (some err))
          | (w1, .ok client) =>
            let n1 := w1.nodes self
            (w1.setNode self { n1 with peers := mapSet n1.peers addr (some client) }, none)
      match connected with
      | (w1, some fatal) => (w1, some fatal)
      | (w1, none) =>
        match mapGet (w1.nodes self).peers addr with
        | some (some peer) =>
          joinCluster.range self env rest (peer.Join w1 self (w1.nodes self).address env).1
        | _ => (w1, some "panic: invalid memory address or nil pointer dereference")

/-- Join an existing cluster; the second component is the fatal exit, if any. -/
def joinCluster (w : World) (self : String) (address : String) (env : Env) :
    World × Option String :=
  match connectPeer w self address env with
  | (w1, .error err) => (w1, failOnErr ("Failed to connect to " ++ address) (some err))
  | (w1, .ok client) =>
    let n1 := w1.nodes self
    let w2 := w1.setNode self { n1 with peers := mapSet n1.peers address (some client) }
    match client.GetClusterInfo w2 self env with
    | (w3, .error err) => (w3, failOnErr "Could not get cluster info" (some err))
    | (w3, .ok info) =>
      let n3 := w3.nodes self
      let w4 := w3.setNode self
        { n3 with dstore := info.Dstore.foldl (fun d kv => mapSet d kv.1 kv.2) n3.dstore }
      joinCluster.range self env info.Peers w4

/-- Run a Keystone Light node, from the open listener at `address` up to the
start of serving: `args` is `os.Args`; the second component is the fatal
exit of the bootstrap, if any. -/
def main (w : World) (address : String) (args : List String) (env : Env) :
    World × Option String :=
  let n : node := { address := address, dstore := [], peers := [(address, none)] }
  let w1 := w.setNode address n
  if args.length > 1 then joinCluster w1 address (args.getD 1 "") env
  else (w1, none)

/-! ## Serving -/

/-- An inbound RPC of a node. -/
inductive Request where
  | Read (key : String)
  | Write (key value : String)
  | ServerWrite (key value : String)
  | GetClusterInfo
  | Join (address : String)
deriving DecidableEq, Repr

/-- Serve one request at the node at `self`: the world after the handler returned. -/
def handle (w : World) (self : String) (env : Env) : Request → World
  | Request.Read key => (Read w self key).1
  | Request.Write key value => (Write w self key value env).1
  | Request.ServerWrite key value => (ServerWrite w self key value).1
  | Request.GetClusterInfo => (GetClusterInfo w self).1
  | Request.Join address => (Join w self address env).1

/-- The order of a `range` over a Go map is unspecified: while a request is served
the registry is ranged over in the order `order`, whenever `order` is a
rearrangement of the registry. -/
def rearrange (order m : List (String × Option KeystoneClient)) :
    List (String × Option KeystoneClient) :=
  if order.Perm m then order else m

/-- One request served: the request, the answers of the network while it is
served, and the order in which the registry is ranged over. -/
structure Step where
  request : Request
  env : Env
  order : List (String × Option KeystoneClient)

/-- The node at `self` serves a finite sequence of requests, one at a time. -/
def serve (self : String) : List Step → World → World
  | [], w => w
  | s :: rest, w =>
    let n := w.nodes self
    serve self rest
      (handle (w.setNode self { n with peers := rearrange s.order n.peers }) self s.env s.request)

/-! ## Vocabulary of the statements -/

/-- The fan-out call to this registry entry fails with a connection-refused-class error. -/
def Write.refused (self key value : String) (env : Env)
    (e : String × Option KeystoneClient) : Bool :=
  match e.2 with
  | none => false
  | some peer =>
    match env.fault self (Call.ServerWrite peer key value) with
    | some f => strings.Contains f.msg "connect: connection refused"
    | none => false

/-- The error text when the fan-out call to this registry entry fails with an
error that is not of the connection-refused class. -/
def Write.aborts (self key value : String) (env : Env)
    (e : String × Option KeystoneClient) : Option String :=
  match e.2 with
  | none => none
  | some peer =>
    match env.fault self (Call.ServerWrite peer key value) with
    | some f => if strings.Contains f.msg "connect: connection refused" then none else some f.msg
    | none => none

/-- The ServerWrite calls of a fan-out that visits all of the entries `it`. -/
def Write.calls (self key value : String) (it : List (String × Option KeystoneClient)) :
    List (String × Call) :=
  it.filterMap (fun e => e.2.map (fun peer => (self, Call.ServerWrite peer key value)))

/-- The state of a joining node: its `address` field is the address it runs at,
and every registry entry of another address holds a handle dialled to that
address. -/
def joining (w : World) (self : String) : Prop :=
  (w.nodes self).address = self ∧
  ∀ a h, mapGet (w.nodes self).peers a = some h → a ≠ self → ∃ c, h = some ⟨a, c⟩

/-- The self entry: the registry is a map that holds the node's own address with no
handle. -/
def selfEntry (w : World) (self : String) : Prop :=
  mapWF (w.nodes self).peers ∧ mapGet (w.nodes self).peers self = some none

/-! ## Sample clusters -/

/-- Every process in its startup state, nothing logged. -/
def World.fresh : World :=
  { nodes := fun a => { address := a, dstore := [], peers := [(a, none)] }, log := [] }

/-- The node at N knows the peers P and Q; the store of N holds one key. -/
def World.three : World :=
  World.fresh.setNode "N"
    { address := "N", dstore := [("x", "1")],
      peers := [("N", none), ("P", some ⟨"P", 1⟩), ("Q", some ⟨"Q", 2⟩)] }

/-- The node at A holds two keys; the node at B has a local store that overlaps
the store of A. -/
def World.pair : World :=
  (World.fresh.setNode "A"
    { address := "A", dstore := [("x", "1"), ("y", "2")], peers := [("A", none)] }).setNode "B"
    { address := "B", dstore := [("x", "0"), ("z", "9")], peers := [("B", none)] }

/-- Every dial and every call goes through. -/
def Env.calm : Env :=
  { dial := fun _ _ => .ok 7, fault := fun _ _ => none }

/-- Nobody listens at P any more: calls to P are refused. -/
def Env.downP : Env :=
  { dial := fun _ _ => .ok 7,
    fault := fun _ c =>
      match c with
      | Call.ServerWrite peer _ _ =>
        if peer.target = "P" then
          some ⟨"rpc error: code = Unavailable desc = dial tcp [::1]:1990: connect: connection refused", false⟩
        else none
      | _ => none }

/-- Calls to Q time out. -/
def Env.slowQ : Env :=
  { dial := fun _ _ => .ok 7,
    fault := fun _ c =>
      match c with
      | Call.ServerWrite peer _ _ =>
        if peer.target = "Q" then
          some ⟨"rpc error: code = DeadlineExceeded desc = context deadline exceeded", false⟩
        else none
      | _ => none }

/-- Calls to P are refused and calls to Q time out. -/
def Env.downPslowQ : Env :=
  { dial := fun _ _ => .ok 7,
    fault := fun _ c =>
      match c with
      | Call.ServerWrite peer _ _ =>
        if peer.target = "P" then
          some ⟨"rpc error: code = Unavailable desc = dial tcp [::1]:1990: connect: connection refused", false⟩
        else if peer.target = "Q" then
          some ⟨"rpc error: code = DeadlineExceeded desc = context deadline exceeded", false⟩
        else none
      | _ => none }

/-- Every dial and every call goes through, except that Join calls are lost. -/
def Env.joinLost : Env :=
  { dial := fun _ _ => .ok 7,
    fault := fun _ c =>
      match c with
      | Call.Join _ _ => some ⟨"rpc error: code = Unavailable desc = transport is closing", false⟩
      | _ => none }

/-- The node at A started alone, then the node at C joined it. -/
def World.duo : World :=
  (main (main World.fresh "A" ["server"] Env.calm).1 "C" ["server", "A"] Env.calm).1

/-- Calls to A are refused. -/
def Env.downA : Env :=
  { dial := fun _ _ => .ok 7,
    fault := fun _ c =>
      match c with
      | Call.ServerWrite peer _ _ =>
        if peer.target = "A" then
          some ⟨"rpc error: code = Unavailable desc = dial tcp [::1]:1989: connect: connection refused", false⟩
        else none
      | _ => none }

/-- The node at N started alone, then served a Join naming its own address and a
Join naming Q: its registry holds a handle to N itself and a handle to Q. -/
def World.selfJoined : World :=
  serve "N" [⟨Request.Join "N", Env.calm, []⟩, ⟨Request.Join "Q", Env.calm, []⟩]
    (main World.fresh "N" ["server"] Env.calm).1

/-- The node at A started alone, served a Join naming its own address, and then a
Write during which the call on the handle to itself was refused: the Write removed
the entry of A from the registry of A. -/
def World.selfEvicted : World :=
  serve "A" [⟨Request.Join "A", Env.calm, []⟩, ⟨Request.Write "k" "v", Env.downA, []⟩]
    (main World.fresh "A" ["server"] Env.calm).1

/-- No connection can be set up: every dial fails. -/
def Env.deaf : Env :=
  { dial := fun _ _ => .error "grpc: no transport security set", fault := fun _ _ => none }

/-- Every dial and every call goes through; connections get the number 8. -/
def Env.again : Env :=
  { dial := fun _ _ => .ok 8, fault := fun _ _ => none }

/-! ## The listener -/

/-- The constants of the server. -/
def host : String := "localhost"

/-- The first port of the range that the server searches. -/
def startingPort : Int := 1989

/-- The length of the range that the server searches. -/
def portRange : Int := 100

/-- The value of a Go `int` (64 bits, two's complement) for the integer `x`:
`start + max` is computed in this arithmetic. -/
def int64 (x : Int) : Int :=
  (x + 9223372036854775808) % 18446744073709551616 - 9223372036854775808

/-- The loop of `listenerOnUnusedPort` with `left` ports still to try, the next one
being `port`.  `listen address` is the result of `net.Listen("tcp", address)`: a
listener or an error text. -/
def listenerOnUnusedPort.range (host : String) (listen : String → Except String Nat) :
    Nat → Int → String × Option Nat × Option String
  | 0, _ => ("", none, some "Failed to find unused port in range")
  | left + 1, port =>
    let address := host ++ ":" ++ toString port
    match listen address with
    | .ok lis => (address, some lis, none)
    | .error err =>
      if ! strings.Contains err "bind: address already in use" then ("", none, some err)
      else listenerOnUnusedPort.range host listen left (port + 1)

/-- Opens a listener on an unused port: the ports `start`, `start + 1`, ... are tried
while they are below `start + max`. -/
def listenerOnUnusedPort (host : String) (start max : Int) (listen : String → Except String Nat) :
    String × Option Nat × Option String :=
  listenerOnUnusedPort.range host listen (int64 (start + max) - start).toNat start

/-- The ports 1989 and 1990 are taken, every other port is free. -/
def listenBusy (address : String) : Except String Nat :=
  if address = "localhost:1989" ∨ address = "localhost:1990" then
    .error ("listen tcp " ++ address ++ ": bind: address already in use")
  else .ok 3

/-- The port 1989 may not be bound by this user, every other port is free. -/
def listenDenied (address : String) : Except String Nat :=
  if address = "localhost:1989" then
    .error ("listen tcp " ++ address ++ ": bind: permission denied")
  else .ok 3

/-- Listening on the port `q` of `host` fails because the address is in use. -/
def portInUse (host : String) (listen : String → Except String Nat) (q : Int) : Prop :=
  ∃ err, listen (host ++ ":" ++ toString q) = .error err ∧
    strings.Contains err "bind: address already in use" = true

/-- The calls that `caller` issued, in the order of the log. -/
def callsBy (caller : String) (log : List (String × Call)) : List Call :=
  (log.filter (fun c => c.1 = caller)).map Prod.snd

/-- The calls of the fan-out of `joinCluster` for one listed address other than the
node's own, the registry being `peers` when the fan-out starts: a Join on the handle
of the registry, after a dial (on the connection `conn addr`) when the registry has
no entry for the address. -/
def joinCluster.calls (self : String) (conn : String → Nat)
    (peers : List (String × Option KeystoneClient)) (addr : String) : List Call :=
  match mapGet peers addr with
  | some (some peer) => [Call.Join peer self]
  | _ => [Call.Dial addr, Call.Join ⟨addr, conn addr⟩ self]

/-- The node at B has registered its seed A and is about to contact the peers that
A lists. -/
def World.seeded : World :=
  World.fresh.setNode "B"
    { address := "B", dstore := [], peers := [("B", none), ("A", some ⟨"A", 7⟩)] }

end Server

/-! # The command-line client: `client/main.go` -/

namespace Client

/-- An RPC that the client issues on its connection to the server. -/
inductive Rpc where
  | Read (key : String)
  | Write (key value : String)
deriving DecidableEq, Repr

/-- The answers that the client gets: `dial server` is the error of
`grpc.Dial(server)`, if any; `read key` is the reply of the server to Read, a value
or an error text; `write key value` is the error of Write, if any. -/
structure Env where
  dial : String → Option String
  read : String → Except String String
  write : String → String → Option String

/-- A run of the client: the RPCs issued, the lines printed or logged, and the fatal
exit, if any. -/
structure Run where
  calls : List Rpc
  printed : List String
  fatal : Option String
deriving DecidableEq, Repr

/-- The fatal exit of `failOnErr`: `some` when `err` is not nil, `none` otherwise.
Only whether the process exits is modelled.  The text stands for what
`log.Fatalf(msg, err)` prints (`msg` used as the format, followed by the rendering
that Go gives to the extra argument `err`) and is not that output. -/
def failOnErr (msg : String) (err : Option String) : Option String :=
  match err with
  | some e => some (msg ++ ": " ++ e)
  | none => none

/-- Read from the server and print the response. -/
def readAndPrint (env : Env) (key : String) : Run :=
  match env.read key with
  | .error err =>
    { calls := [Rpc.Read key], printed := [], fatal := failOnErr "Failed to read" (some err) }
  | .ok value =>
    { calls := [Rpc.Read key], printed := ["Read:  " ++ key ++ "=" ++ value], fatal := none }

/-- Write to the server and print what was written. -/
def writeAndPrint (env : Env) (key value : String) : Run :=
  match failOnErr "Failed to write" (env.write key value) with
  | some fatal => { calls := [Rpc.Write key value], printed := [], fatal := some fatal }
  | none =>
    { calls := [Rpc.Write key value], printed := ["Wrote: " ++ key ++ "=" ++ value],
      fatal := none }

/-- The client: `args` is `os.Args`, the name of the program first. -/
def main (args : List String) (env : Env) : Run :=
  if args.length < 3 then
    { calls := [],
      printed := ["Usage: client server:port KEY [VALUE]", " KEY only:  read KEY",
        " KEY/VALUE: write KEY:VALUE"],
      fatal := none }
  else
    let server := args.getD 1 ""
    let key := args.getD 2 ""
    let value := if args.length > 3 then args.getD 3 "" else ""
    match failOnErr "Failed to connect" (env.dial server) with
    | some fatal => { calls := [], printed := [], fatal := some fatal }
    | none =>
      if value.length > 0 then writeAndPrint env key value
      else readAndPrint env key

/-- A server that is reached and answers: it holds the value 1 for every key. -/
def Env.up : Env :=
  { dial := fun _ => none, read := fun _ => .ok "1", write := fun _ _ => none }

end Client

namespace Server

/-! ## Maps -/

theorem mapGet_mapSet_self {β : Type} (m : List (String × β)) (k : String) (v : β) :
    mapGet (mapSet m k v) k = some v := by
  induction m with
  | nil => simp [mapSet, mapGet]
  | cons e rest ih =>
    obtain ⟨k', v'⟩ := e
    by_cases h : k' = k <;> simp [mapSet, mapGet, h, ih]

theorem mapGet_mapSet_ne {β : Type} (m : List (String × β)) (k k' : String) (v : β)
    (h : k' ≠ k) : mapGet (mapSet m k v) k' = mapGet m k' := by
  induction m with
  | nil => simp [mapSet, mapGet, h.symm]
  | cons e rest ih =>
    obtain ⟨k1, v1⟩ := e
    by_cases h1 : k1 = k
    · subst h1; simp [mapSet, mapGet, h.symm]
    · by_cases h2 : k1 = k'
      · subst h2; simp [mapSet, mapGet, h1]
      · simp [mapSet, mapGet, h1, h2, ih]

theorem mapGet_eq_none_iff {β : Type} (m : List (String × β)) (k : String) :
    mapGet m k = none ↔ k ∉ m.map Prod.fst := by
  induction m with
  | nil => simp [mapGet]
  | cons e rest ih =>
    obtain ⟨k1, v1⟩ := e
    by_cases h1 : k1 = k
    · simp [mapGet, h1]
    · simp [mapGet, h1, ih, Ne.symm h1]

theorem mem_keys_mapSet {β : Type} (m : List (String × β)) (k k' : String) (v : β) :
    k' ∈ (mapSet m k v).map Prod.fst ↔ k' = k ∨ k' ∈ m.map Prod.fst := by
  induction m with
  | nil => simp [mapSet]
  | cons e rest ih =>
    obtain ⟨k1, v1⟩ := e
    by_cases h1 : k1 = k
    · subst h1; simp [mapSet]
    · simp only [mapSet, h1, if_false, List.map_cons, List.mem_cons, ih]; tauto

theorem mapGet_of_mem {β : Type} (m : List (String × β)) (hm : mapWF m) (k : String) (v : β)
    (h : (k, v) ∈ m) : mapGet m k = some v := by
  induction m with
  | nil => simp at h
  | cons e rest ih =>
    obtain ⟨k1, v1⟩ := e
    simp only [mapWF, List.map_cons, List.nodup_cons] at hm
    rcases List.mem_cons.1 h with h | h
    · cases h; simp [mapGet]
    · have : k1 ≠ k := by
        rintro rfl
        exact hm.1 (List.mem_map.2 ⟨(k1, v), h, rfl⟩)
      simp [mapGet, this, ih hm.2 h]

theorem mem_of_mapGet {β : Type} (m : List (String × β)) (k : String) (v : β)
    (h : mapGet m k = some v) : (k, v) ∈ m := by
  induction m with
  | nil => simp [mapGet] at h
  | cons e rest ih =>
    obtain ⟨k1, v1⟩ := e
    by_cases h1 : k1 = k
    · simp [mapGet, h1] at h; simp [h1, h]
    · simp [mapGet, h1] at h; simp [ih h]

/-! ## The world -/

@[simp] theorem setNode_nodes_self (w : World) (a : String) (n : node) :
    (w.setNode a n).nodes a = n := by
  simp [World.setNode]

theorem setNode_nodes_ne (w : World) (a b : String) (n : node) (h : b ≠ a) :
    (w.setNode a n).nodes b = w.nodes b := by
  simp [World.setNode, h]

@[simp] theorem setNode_log (w : World) (a : String) (n : node) :
    (w.setNode a n).log = w.log := rfl

@[simp] theorem record_nodes (w : World) (c : String) (x : Call) :
    (w.record c x).nodes = w.nodes := rfl

@[simp] theorem record_log (w : World) (c : String) (x : Call) :
    (w.record c x).log = w.log ++ [(c, x)] := rfl

/-! ## The ServerWrite call on a handle -/

theorem stub_ServerWrite_err (peer : KeystoneClient) (w : World) (c k v : String) (env : Env) :
    (peer.ServerWrite w c k v env).2 =
      (env.fault c (Call.ServerWrite peer k v)).map Fault.msg := by
  unfold KeystoneClient.ServerWrite
  cases env.fault c (Call.ServerWrite peer k v) <;> simp [ServerWrite]

theorem stub_ServerWrite_log (peer : KeystoneClient) (w : World) (c k v : String) (env : Env) :
    (peer.ServerWrite w c k v env).1.log = w.log ++ [(c, Call.ServerWrite peer k v)] := by
  unfold KeystoneClient.ServerWrite
  cases hf : env.fault c (Call.ServerWrite peer k v) with
  | none => simp [ServerWrite]
  | some f => cases hd : f.delivered <;> simp [ServerWrite, hd]

theorem stub_ServerWrite_node (peer : KeystoneClient) (w : World) (c k v : String) (env : Env)
    (a : String) :
    (peer.ServerWrite w c k v env).1.nodes a = w.nodes a ∨
      (a = peer.target ∧ (peer.ServerWrite w c k v env).1.nodes a =
        { w.nodes a with dstore := mapSet (w.nodes a).dstore k v }) := by
  unfold KeystoneClient.ServerWrite
  by_cases ha : a = peer.target
  · subst ha
    cases hf : env.fault c (Call.ServerWrite peer k v) with
    | none => simp [ServerWrite]
    | some f => cases hd : f.delivered <;> simp [ServerWrite, hd]
  · cases hf : env.fault c (Call.ServerWrite peer k v) with
    | none => simp [ServerWrite, World.setNode, ha]
    | some f => cases hd : f.delivered <;> simp [ServerWrite, World.setNode, ha, hd]

theorem stub_ServerWrite_ok (peer : KeystoneClient) (w : World) (c k v : String) (env : Env)
    (h : env.fault c (Call.ServerWrite peer k v) = none) :
    mapGet ((peer.ServerWrite w c k v env).1.nodes peer.target).dstore k = some v := by
  unfold KeystoneClient.ServerWrite
  simp [h, ServerWrite, mapGet_mapSet_self]

theorem stub_ServerWrite_peers (peer : KeystoneClient) (w : World) (c k v : String) (env : Env)
    (a : String) : ((peer.ServerWrite w c k v env).1.nodes a).peers = (w.nodes a).peers := by
  rcases stub_ServerWrite_node peer w c k v env a with h | ⟨_, h⟩ <;> rw [h]

theorem stub_ServerWrite_address (peer : KeystoneClient) (w : World) (c k v : String) (env : Env)
    (a : String) : ((peer.ServerWrite w c k v env).1.nodes a).address = (w.nodes a).address := by
  rcases stub_ServerWrite_node peer w c k v env a with h | ⟨_, h⟩ <;> rw [h]

theorem stub_ServerWrite_other_key (peer : KeystoneClient) (w : World) (c k v : String)
    (env : Env) (a k' : String) (hk : k' ≠ k) :
    mapGet ((peer.ServerWrite w c k v env).1.nodes a).dstore k' = mapGet (w.nodes a).dstore k' := by
  rcases stub_ServerWrite_node peer w c k v env a with h | ⟨_, h⟩ <;> rw [h]
  exact mapGet_mapSet_ne _ _ _ _ hk

theorem stub_ServerWrite_keep (peer : KeystoneClient) (w : World) (c k v : String)
    (env : Env) (a : String) (h0 : mapGet (w.nodes a).dstore k = some v) :
    mapGet ((peer.ServerWrite w c k v env).1.nodes a).dstore k = some v := by
  rcases stub_ServerWrite_node peer w c k v env a with h | ⟨_, h⟩ <;> rw [h]
  · exact h0
  · exact mapGet_mapSet_self _ _ _

theorem stub_ServerWrite_elsewhere (peer : KeystoneClient) (w : World) (c k v : String)
    (env : Env) (a : String) (ha : peer.target ≠ a) :
    (peer.ServerWrite w c k v env).1.nodes a = w.nodes a := by
  rcases stub_ServerWrite_node peer w c k v env a with h | ⟨h1, _⟩
  · exact h
  · exact absurd h1.symm ha

/-! ## The fan-out loop -/

theorem Write.range_cons_none (self k v : String) (env : Env) (a : String)
    (rest : List (String × Option KeystoneClient)) (w : World) :
    Write.range self k v env ((a, none) :: rest) w = Write.range self k v env rest w := by
  simp [Write.range]

theorem Write.range_cons_ok (self k v : String) (env : Env) (a : String) (p : KeystoneClient)
    (rest : List (String × Option KeystoneClient)) (w : World)
    (h : env.fault self (Call.ServerWrite p k v) = none) :
    Write.range self k v env ((a, some p) :: rest) w =
      Write.range self k v env rest (p.ServerWrite w self k v env).1 := by
  have he := stub_ServerWrite_err p w self k v env
  rw [h] at he
  rcases hr : p.ServerWrite w self k v env with ⟨w1, e⟩
  rw [hr] at he
  simp only [Option.map_none'] at he
  subst he
  simp [Write.range, hr]

theorem Write.range_cons_refused (self k v : String) (env : Env) (a : String)
    (p : KeystoneClient) (rest : List (String × Option KeystoneClient)) (w : World) (f : Fault)
    (h : env.fault self (Call.ServerWrite p k v) = some f)
    (hc : strings.Contains f.msg "connect: connection refused" = true) :
    Write.range self k v env ((a, some p) :: rest) w =
      Write.range self k v env rest
        ((p.ServerWrite w self k v env).1.setNode self
          { (p.ServerWrite w self k v env).1.nodes self with
            peers := mapDelete ((p.ServerWrite w self k v env).1.nodes self).peers a }) := by
  have he := stub_ServerWrite_err p w self k v env
  rw [h] at he
  rcases hr : p.ServerWrite w self k v env with ⟨w1, e⟩
  rw [hr] at he
  simp only [Option.map_some'] at he
  subst he
  simp [Write.range, hr, hc]

theorem Write.range_cons_abort (self k v : String) (env : Env) (a : String)
    (p : KeystoneClient) (rest : List (String × Option KeystoneClient)) (w : World) (f : Fault)
    (h : env.fault self (Call.ServerWrite p k v) = some f)
    (hc : strings.Contains f.msg "connect: connection refused" = false) :
    Write.range self k v env ((a, some p) :: rest) w =
      ((p.ServerWrite w self k v env).1, some f.msg) := by
  have he := stub_ServerWrite_err p w self k v env
  rw [h] at he
  rcases hr : p.ServerWrite w self k v env with ⟨w1, e⟩
  rw [hr] at he
  simp only [Option.map_some'] at he
  subst he
  simp [Write.range, hr, hc]

/-- Any relation between worlds that is reflexive, transitive and holds across each
ServerWrite call and each eviction holds across the fan-out loop. -/
theorem Write.range_rel (self k v : String) (env : Env) (R : World → World → Prop)
    (S : String → KeystoneClient → Prop)
    (hrefl : ∀ w, R w w) (htrans : ∀ a b c, R a b → R b c → R a c)
    (hcall : ∀ w a p, S a p → R w (p.ServerWrite w self k v env).1)
    (hevict : ∀ w a p, S a p → R w (w.setNode self
      { w.nodes self with peers := mapDelete (w.nodes self).peers a })) :
    ∀ (it : List (String × Option KeystoneClient)) (w : World),
      (∀ a p, (a, some p) ∈ it → S a p) → R w (Write.range self k v env it w).1 := by
  intro it
  induction it with
  | nil => intro w _; simpa [Write.range] using hrefl w
  | cons e rest ih =>
    intro w hS
    obtain ⟨a, h⟩ := e
    have hS' : ∀ a p, (a, some p) ∈ rest → S a p :=
      fun a p hm => hS a p (List.mem_cons_of_mem _ hm)
    cases h with
    | none => rw [Write.range_cons_none]; exact ih w hS'
    | some p =>
      have hc := hcall w a p (hS a p (List.mem_cons_self _ _))
      cases hf : env.fault self (Call.ServerWrite p k v) with
      | none =>
        rw [Write.range_cons_ok _ _ _ _ _ _ _ _ hf]
        exact htrans _ _ _ hc (ih _ hS')
      | some f =>
        cases hx : strings.Contains f.msg "connect: connection refused" with
        | true =>
          rw [Write.range_cons_refused _ _ _ _ _ _ _ _ f hf hx]
          exact htrans _ _ _ (htrans _ _ _ hc (hevict _ a p (hS a p (List.mem_cons_self _ _)))) (ih _ hS')
        | false =>
          rw [Write.range_cons_abort _ _ _ _ _ _ _ _ f hf hx]
          exact hc

theorem Write.range_address (self k v : String) (env : Env)
    (it : List (String × Option KeystoneClient)) (w : World) (a : String) :
    ((Write.range self k v env it w).1.nodes a).address = (w.nodes a).address := by
  refine Write.range_rel self k v env
    (fun w w' => ((w'.nodes a).address = (w.nodes a).address)) (fun _ _ => True)
    (fun _ => rfl) (fun _ _ _ h1 h2 => h2.trans h1) ?_ ?_ it w (fun _ _ _ => trivial)
  · intro w _ p _; exact stub_ServerWrite_address p w self k v env a
  · intro w b _ _
    by_cases h : a = self
    · subst h; simp
    · rw [setNode_nodes_ne _ _ _ _ h]

theorem Write.range_other_key (self k v : String) (env : Env)
    (it : List (String × Option KeystoneClient)) (w : World) (a k' : String) (hk : k' ≠ k) :
    mapGet ((Write.range self k v env it w).1.nodes a).dstore k' =
      mapGet (w.nodes a).dstore k' := by
  refine Write.range_rel self k v env
    (fun w w' => (mapGet (w'.nodes a).dstore k' = mapGet (w.nodes a).dstore k'))
    (fun _ _ => True)
    (fun _ => rfl) (fun _ _ _ h1 h2 => h2.trans h1) ?_ ?_ it w (fun _ _ _ => trivial)
  · intro w _ p _; exact stub_ServerWrite_other_key p w self k v env a k' hk
  · intro w b _ _
    by_cases h : a = self
    · subst h; simp
    · rw [setNode_nodes_ne _ _ _ _ h]

theorem Write.range_keep (self k v : String) (env : Env)
    (it : List (String × Option KeystoneClient)) (w : World) (a : String)
    (h0 : mapGet (w.nodes a).dstore k = some v) :
    mapGet ((Write.range self k v env it w).1.nodes a).dstore k = some v := by
  refine Write.range_rel self k v env
    (fun w w' => (mapGet (w.nodes a).dstore k = some v →
      mapGet (w'.nodes a).dstore k = some v))
    (fun _ _ => True)
    (fun _ h => h) (fun _ _ _ h1 h2 h => h2 (h1 h)) ?_ ?_ it w (fun _ _ _ => trivial) h0
  · intro w _ p _ h; exact stub_ServerWrite_keep p w self k v env a h
  · intro w b _ _
    by_cases h : a = self
    · subst h; simp
    · rw [setNode_nodes_ne _ _ _ _ h]; exact fun h => h

theorem Write.range_dstore_of_no_handle (self k v : String) (env : Env)
    (it : List (String × Option KeystoneClient)) (w : World) (x : String)
    (hx : ∀ a p, (a, some p) ∈ it → p.target ≠ x) :
    ((Write.range self k v env it w).1.nodes x).dstore = (w.nodes x).dstore := by
  refine Write.range_rel self k v env
    (fun w w' => ((w'.nodes x).dstore = (w.nodes x).dstore))
    (fun _ p => p.target ≠ x)
    (fun _ => rfl) (fun _ _ _ h1 h2 => h2.trans h1) ?_ ?_ it w hx
  · intro w _ p hp; rw [stub_ServerWrite_elsewhere p w self k v env x hp]
  · intro w b _ _
    by_cases h : x = self
    · subst h; simp
    · rw [setNode_nodes_ne _ _ _ _ h]

theorem Write.range_peers_elsewhere (self k v : String) (env : Env)
    (it : List (String × Option KeystoneClient)) (w : World) (a : String) (ha : a ≠ self) :
    ((Write.range self k v env it w).1.nodes a).peers = (w.nodes a).peers := by
  refine Write.range_rel self k v env
    (fun w w' => ((w'.nodes a).peers = (w.nodes a).peers)) (fun _ _ => True)
    (fun _ => rfl) (fun _ _ _ h1 h2 => h2.trans h1) ?_ ?_ it w (fun _ _ _ => trivial)
  · intro w _ p _; exact stub_ServerWrite_peers p w self k v env a
  · intro w b _ _; rw [setNode_nodes_ne _ _ _ _ ha]

theorem Write.range_peers_subset (self k v : String) (env : Env)
    (it : List (String × Option KeystoneClient)) (w : World) :
    ∀ e, e ∈ ((Write.range self k v env it w).1.nodes self).peers → e ∈ (w.nodes self).peers := by
  refine Write.range_rel self k v env
    (fun w w' => (∀ e, e ∈ (w'.nodes self).peers → e ∈ (w.nodes self).peers)) (fun _ _ => True)
    (fun _ _ h => h) (fun _ _ _ h1 h2 e h => h1 e (h2 e h)) ?_ ?_ it w (fun _ _ _ => trivial)
  · intro w _ p _ e h; rwa [stub_ServerWrite_peers p w self k v env self] at h
  · intro w b _ _ e h
    simp only [setNode_nodes_self, mapDelete] at h
    exact (List.mem_filter.1 h).1

theorem Write.aborts_some_eq (self k v : String) (env : Env) (a : String) (p : KeystoneClient) :
    Write.aborts self k v env (a, some p) =
      match env.fault self (Call.ServerWrite p k v) with
      | some f => if strings.Contains f.msg "connect: connection refused" then none else some f.msg
      | none => none := rfl

theorem Write.refused_some_eq (self k v : String) (env : Env) (a : String) (p : KeystoneClient) :
    Write.refused self k v env (a, some p) =
      match env.fault self (Call.ServerWrite p k v) with
      | some f => strings.Contains f.msg "connect: connection refused"
      | none => false := rfl

/-- A fan-out over entries none of which aborts: it ends without error, the registry
loses the entries that were refused, one call is logged for each handle, and every
peer whose call went through holds the value. -/
theorem Write.range_no_abort (self k v : String) (env : Env) :
    ∀ (it : List (String × Option KeystoneClient)) (w : World),
      (∀ e ∈ it, Write.aborts self k v env e = none) →
      (Write.range self k v env it w).2 = none ∧
      ((Write.range self k v env it w).1.nodes self).peers =
        (w.nodes self).peers.filter
          (fun e => decide (e.1 ∉ (it.filter (Write.refused self k v env)).map Prod.fst)) ∧
      (Write.range self k v env it w).1.log = w.log ++ Write.calls self k v it ∧
      (∀ a p, (a, some p) ∈ it → env.fault self (Call.ServerWrite p k v) = none →
        mapGet ((Write.range self k v env it w).1.nodes p.target).dstore k = some v) := by
  intro it
  induction it with
  | nil => intro w _; simp [Write.range, Write.calls]
  | cons e rest ih =>
    intro w hab
    obtain ⟨a, h⟩ := e
    have hab' : ∀ e ∈ rest, Write.aborts self k v env e = none :=
      fun e he => hab e (List.mem_cons_of_mem _ he)
    cases h with
    | none =>
      rw [Write.range_cons_none]
      obtain ⟨h1, h2, h3, h4⟩ := ih w hab'
      refine ⟨h1, ?_, ?_, ?_⟩
      · rw [h2, List.filter_cons_of_neg (by simp [Write.refused])]
      · rw [h3]; simp [Write.calls]
      · intro b q hm hq
        rcases List.mem_cons.1 hm with hm | hm
        · cases hm
        · exact h4 b q hm hq
    | some p =>
      have hhead := hab (a, some p) (List.mem_cons_self _ _)
      rw [Write.aborts_some_eq] at hhead
      cases hf : env.fault self (Call.ServerWrite p k v) with
      | none =>
        rw [Write.range_cons_ok _ _ _ _ _ _ _ _ hf]
        obtain ⟨h1, h2, h3, h4⟩ := ih (p.ServerWrite w self k v env).1 hab'
        refine ⟨h1, ?_, ?_, ?_⟩
        · rw [h2, stub_ServerWrite_peers,
            List.filter_cons_of_neg (by simp [Write.refused_some_eq, hf])]
        · rw [h3, stub_ServerWrite_log]; simp [Write.calls]
        · intro b q hm hq
          rcases List.mem_cons.1 hm with hm | hm
          · cases hm
            exact Write.range_keep self k v env rest _ _
              (stub_ServerWrite_ok p w self k v env hf)
          · exact h4 b q hm hq
      | some f =>
        rw [hf] at hhead
        cases hx : strings.Contains f.msg "connect: connection refused" with
        | false => simp [hx] at hhead
        | true =>
          rw [Write.range_cons_refused _ _ _ _ _ _ _ _ f hf hx]
          obtain ⟨h1, h2, h3, h4⟩ := ih _ hab'
          refine ⟨h1, ?_, ?_, ?_⟩
          · rw [h2]
            simp only [setNode_nodes_self, mapDelete, stub_ServerWrite_peers, List.filter_filter]
            apply List.filter_congr
            intro e _
            have hr : Write.refused self k v env (a, some p) = true := by
              rw [Write.refused_some_eq, hf]; exact hx
            rw [List.filter_cons_of_pos hr, List.map_cons, Bool.eq_iff_iff]
            simp only [Bool.and_eq_true, decide_eq_true_eq, List.mem_cons, not_or]
            tauto
          · rw [h3]; simp [stub_ServerWrite_log, Write.calls]
          · intro b q hm hq
            rcases List.mem_cons.1 hm with hm | hm
            · cases hm; rw [hf] at hq; cases hq
            · exact h4 b q hm hq

theorem Write.range_append (self k v : String) (env : Env)
    (pre post : List (String × Option KeystoneClient)) (w : World)
    (h : (Write.range self k v env pre w).2 = none) :
    Write.range self k v env (pre ++ post) w =
      Write.range self k v env post (Write.range self k v env pre w).1 := by
  induction pre generalizing w with
  | nil => simp [Write.range]
  | cons e rest ih =>
    obtain ⟨a, o⟩ := e
    cases o with
    | none =>
      rw [List.cons_append, Write.range_cons_none, Write.range_cons_none] at *
      exact ih w h
    | some p =>
      cases hf : env.fault self (Call.ServerWrite p k v) with
      | none =>
        rw [List.cons_append, Write.range_cons_ok _ _ _ _ _ _ _ _ hf] at *
        rw [Write.range_cons_ok _ _ _ _ _ _ _ _ hf]
        exact ih _ h
      | some f =>
        cases hx : strings.Contains f.msg "connect: connection refused" with
        | true =>
          rw [List.cons_append, Write.range_cons_refused _ _ _ _ _ _ _ _ f hf hx] at *
          rw [Write.range_cons_refused _ _ _ _ _ _ _ _ f hf hx]
          exact ih _ h
        | false =>
          rw [Write.range_cons_abort _ _ _ _ _ _ _ _ f hf hx] at h
          cases h

/-! ## Write -/

theorem Write_of_none (w : World) (self k v : String) (env : Env)
    (h : (Write.range self k v env (w.nodes self).peers w).2 = none) :
    Write w self k v env =
      ((Write.range self k v env (w.nodes self).peers w).1.setNode self
        { (Write.range self k v env (w.nodes self).peers w).1.nodes self with
          dstore := mapSet
            ((Write.range self k v env (w.nodes self).peers w).1.nodes self).dstore k v },
        none) := by
  unfold Write
  rcases hr : Write.range self k v env (w.nodes self).peers w with ⟨w1, e⟩
  rw [hr] at h
  simp only at h
  subst h
  rfl

theorem Write_of_some (w : World) (self k v : String) (env : Env) (err : String)
    (h : (Write.range self k v env (w.nodes self).peers w).2 = some err) :
    Write w self k v env =
      ((Write.range self k v env (w.nodes self).peers w).1, some err) := by
  unfold Write
  rcases hr : Write.range self k v env (w.nodes self).peers w with ⟨w1, e⟩
  rw [hr] at h
  simp only at h
  subst h
  rfl

theorem mapWF_unique {β : Type} (m : List (String × β)) (hm : mapWF m) (e e' : String × β)
    (he : e ∈ m) (he' : e' ∈ m) (hk : e.1 = e'.1) : e = e' := by
  obtain ⟨k, v⟩ := e
  obtain ⟨k', v'⟩ := e'
  simp only at hk
  subst hk
  have h1 := mapGet_of_mem m hm k v he
  have h2 := mapGet_of_mem m hm k v' he'
  rw [h1] at h2
  cases h2
  rfl

/-- C1: when every live-handle peer's ServerWrite call goes through (in particular
when the registry holds only the self entry), Write returns success, a following
Read of the key on the node returns the value, Read of the key on every peer the
node held a handle for returns the value, and the calls issued are exactly one
ServerWrite per live handle, none for an entry without a handle. -/
theorem Write_replicates (w : World) (self k v : String) (env : Env)
    (hok : ∀ a p, (a, some p) ∈ (w.nodes self).peers →
      env.fault self (Call.ServerWrite p k v) = none) :
    (Write w self k v env).2 = none ∧
    (Read (Write w self k v env).1 self k).2 = (v, none) ∧
    (∀ a p, (a, some p) ∈ (w.nodes self).peers →
      (Read (Write w self k v env).1 p.target k).2 = (v, none)) ∧
    (Write w self k v env).1.log = w.log ++ Write.calls self k v (w.nodes self).peers := by
  have hna : ∀ e ∈ (w.nodes self).peers, Write.aborts self k v env e = none := by
    rintro ⟨a, o⟩ he
    cases o with
    | none => rfl
    | some p => rw [Write.aborts_some_eq, hok a p he]
  obtain ⟨h1, _, h3, h4⟩ := Write.range_no_abort self k v env _ w hna
  rw [Write_of_none w self k v env h1]
  refine ⟨rfl, ?_, ?_, ?_⟩
  · simp [Read, mapGet_mapSet_self]
  · intro a p hm
    by_cases hp : p.target = self
    · simp [Read, hp, mapGet_mapSet_self]
    · simp [Read, setNode_nodes_ne _ _ _ _ hp, h4 a p hm (hok a p hm)]
  · simpa using h3

/-- C1 at a node with two reachable peers. -/
theorem Write_replicates_witness :
    (Write World.three "N" "k" "v" Env.calm).2 = none ∧
    (Read (Write World.three "N" "k" "v" Env.calm).1 "N" "k").2 = ("v", none) ∧
    (Read (Write World.three "N" "k" "v" Env.calm).1 "P" "k").2 = ("v", none) ∧
    (Read (Write World.three "N" "k" "v" Env.calm).1 "Q" "k").2 = ("v", none) :=
  have h := Write_replicates World.three "N" "k" "v" Env.calm (fun _ _ _ => rfl)
  ⟨h.1, h.2.1, h.2.2.1 "P" ⟨"P", 1⟩ (by decide), h.2.2.1 "Q" ⟨"Q", 2⟩ (by decide)⟩

/-- C2: when every live-handle peer's ServerWrite call either goes through or fails
with an error whose text contains "connect: connection refused", Write returns
success, the local store afterwards maps the key to the value and is unchanged on
every other key, and the registry afterwards is the prior registry without the
entries whose call failed that way, every other entry kept as it was. -/
theorem Write_evicts_and_commits (w : World) (self k v : String) (env : Env)
    (hwf : mapWF (w.nodes self).peers)
    (hcls : ∀ a p, (a, some p) ∈ (w.nodes self).peers →
      env.fault self (Call.ServerWrite p k v) = none ∨
      ∃ f, env.fault self (Call.ServerWrite p k v) = some f ∧
        strings.Contains f.msg "connect: connection refused" = true) :
    (Write w self k v env).2 = none ∧
    mapGet ((Write w self k v env).1.nodes self).dstore k = some v ∧
    (∀ k', k' ≠ k → mapGet ((Write w self k v env).1.nodes self).dstore k' =
      mapGet (w.nodes self).dstore k') ∧
    ((Write w self k v env).1.nodes self).peers =
      (w.nodes self).peers.filter (fun e => !Write.refused self k v env e) := by
  have hna : ∀ e ∈ (w.nodes self).peers, Write.aborts self k v env e = none := by
    rintro ⟨a, o⟩ he
    cases o with
    | none => rfl
    | some p =>
      rw [Write.aborts_some_eq]
      rcases hcls a p he with h | ⟨f, h, hc⟩
      · rw [h]
      · rw [h]; simp [hc]
  obtain ⟨h1, h2, _, _⟩ := Write.range_no_abort self k v env _ w hna
  rw [Write_of_none w self k v env h1]
  refine ⟨rfl, ?_, ?_, ?_⟩
  · simp [mapGet_mapSet_self]
  · intro k' hk
    simp only [setNode_nodes_self]
    rw [mapGet_mapSet_ne _ _ _ _ hk]
    exact Write.range_other_key self k v env _ w self k' hk
  · simp only [setNode_nodes_self]
    rw [h2]
    apply List.filter_congr
    intro e he
    rw [Bool.eq_iff_iff]
    simp only [decide_eq_true_eq, List.mem_map, List.mem_filter, Bool.not_eq_true',
      ← Bool.not_eq_true]
    constructor
    · intro h hr; exact h ⟨e, ⟨he, hr⟩, rfl⟩
    · rintro h ⟨e', ⟨he', hr⟩, hk⟩
      rw [mapWF_unique _ hwf e' e he' he hk] at hr
      exact h hr

/-- C2 at a node with one departed peer and one reachable peer. -/
theorem Write_evicts_and_commits_witness :
    (Write World.three "N" "k" "v" Env.downP).2 = none ∧
    mapGet ((Write World.three "N" "k" "v" Env.downP).1.nodes "N").dstore "k" = some "v" ∧
    mapGet ((Write World.three "N" "k" "v" Env.downP).1.nodes "N").dstore "x" = some "1" ∧
    ((Write World.three "N" "k" "v" Env.downP).1.nodes "N").peers =
      [("N", none), ("Q", some ⟨"Q", 2⟩)] :=
  have h := Write_evicts_and_commits World.three "N" "k" "v" Env.downP (by decide)
    (by
      intro a p hm
      have hm' : (a, some p) = ("P", some ⟨"P", 1⟩) ∨ (a, some p) = ("Q", some ⟨"Q", 2⟩) := by
        simpa [World.three] using hm
      rcases hm' with hm' | hm' <;> cases hm'
      · exact Or.inr ⟨_, rfl, by decide⟩
      · exact Or.inl rfl)
  ⟨h.1, h.2.1, (h.2.2.1 "x" (by decide)).trans (by decide), h.2.2.2.trans (by decide)⟩

/-- C10: ServerWrite returns success; the resulting store maps the key to the value
and agrees with the prior store on every other key; the registry is unchanged; no
outbound call is issued (the log is unchanged) and no other node changes. -/
theorem ServerWrite_local (w : World) (self k v : String) :
    (ServerWrite w self k v).2 = none ∧
    mapGet ((ServerWrite w self k v).1.nodes self).dstore k = some v ∧
    (∀ k', k' ≠ k → mapGet ((ServerWrite w self k v).1.nodes self).dstore k' =
      mapGet (w.nodes self).dstore k') ∧
    ((ServerWrite w self k v).1.nodes self).peers = (w.nodes self).peers ∧
    (ServerWrite w self k v).1.log = w.log ∧
    (∀ a, a ≠ self → (ServerWrite w self k v).1.nodes a = w.nodes a) := by
  refine ⟨rfl, ?_, ?_, ?_, rfl, ?_⟩
  · simp [ServerWrite, mapGet_mapSet_self]
  · intro k' hk; simp [ServerWrite, mapGet_mapSet_ne _ _ _ _ hk]
  · simp [ServerWrite]
  · intro a ha; simp [ServerWrite, setNode_nodes_ne _ _ _ _ ha]

/-! ## Aborted writes -/

theorem exists_first {α : Type} (P : α → Prop) (l : List α) (h : ∃ x ∈ l, P x) :
    ∃ pre x post, l = pre ++ x :: post ∧ P x ∧ ∀ y ∈ pre, ¬ P y := by
  classical
  induction l with
  | nil => simp at h
  | cons a rest ih =>
    by_cases ha : P a
    · exact ⟨[], a, rest, rfl, ha, by simp⟩
    · obtain ⟨x, hx, hP⟩ := h
      rcases List.mem_cons.1 hx with hx | hx
      · subst hx; exact absurd hP ha
      · obtain ⟨pre, y, post, hl, hy, hpre⟩ := ih ⟨x, hx, hP⟩
        refine ⟨a :: pre, y, post, by simp [hl], hy, ?_⟩
        intro z hz
        rcases List.mem_cons.1 hz with hz | hz
        · subst hz; exact ha
        · exact hpre z hz

/-- The fan-out up to and including its first aborting entry. -/
theorem Write.range_first_abort (self k v : String) (env : Env)
    (pre post : List (String × Option KeystoneClient)) (a : String) (p : KeystoneClient)
    (f : Fault) (w : World)
    (hpre : ∀ e ∈ pre, Write.aborts self k v env e = none)
    (hf : env.fault self (Call.ServerWrite p k v) = some f)
    (hc : strings.Contains f.msg "connect: connection refused" = false) :
    Write.range self k v env (pre ++ (a, some p) :: post) w =
      ((p.ServerWrite (Write.range self k v env pre w).1 self k v env).1, some f.msg) := by
  rw [Write.range_append _ _ _ _ _ _ _ (Write.range_no_abort self k v env pre w hpre).1,
    Write.range_cons_abort _ _ _ _ _ _ _ _ f hf hc]

theorem Write.aborts_eq_some (self k v : String) (env : Env) (e : String × Option KeystoneClient)
    (err : String) (h : Write.aborts self k v env e = some err) :
    ∃ p f, e.2 = some p ∧ env.fault self (Call.ServerWrite p k v) = some f ∧
      strings.Contains f.msg "connect: connection refused" = false ∧ f.msg = err := by
  obtain ⟨a, o⟩ := e
  cases o with
  | none => simp [Write.aborts] at h
  | some p =>
    rw [Write.aborts_some_eq] at h
    cases hf : env.fault self (Call.ServerWrite p k v) with
    | none => rw [hf] at h; simp at h
    | some f =>
      rw [hf] at h
      cases hx : strings.Contains f.msg "connect: connection refused" with
      | true => simp [hx] at h
      | false =>
        simp [hx] at h
        exact ⟨p, f, rfl, hf, hx, h⟩

/-- The abort of Write: when some live-handle peer's ServerWrite call fails with an
error that is not of the connection-refused class, Write returns the error of the
first such peer of the fan-out, and every peer whose call went through before the
abort holds the value for the key; the local store is exactly as before the call
when the handles of the registry all lead to other nodes. -/
theorem Write_abort_keeps_store (w : World) (self k v : String) (env : Env)
    (hfail : ∃ a p f, (a, some p) ∈ (w.nodes self).peers ∧
      env.fault self (Call.ServerWrite p k v) = some f ∧
      strings.Contains f.msg "connect: connection refused" = false) :
    ∃ pre a p f post,
      (w.nodes self).peers = pre ++ (a, some p) :: post ∧
      env.fault self (Call.ServerWrite p k v) = some f ∧
      strings.Contains f.msg "connect: connection refused" = false ∧
      (Write w self k v env).2 = some f.msg ∧
      ((∀ b q, (b, some q) ∈ (w.nodes self).peers → q.target ≠ self) →
        ((Write w self k v env).1.nodes self).dstore = (w.nodes self).dstore) ∧
      (∀ b q, (b, some q) ∈ pre → env.fault self (Call.ServerWrite q k v) = none →
        (Read (Write w self k v env).1 q.target k).2 = (v, none)) := by
  have hex : ∃ e ∈ (w.nodes self).peers, Write.aborts self k v env e ≠ none := by
    obtain ⟨a, p, f, hm, hf, hc⟩ := hfail
    exact ⟨(a, some p), hm, by simp [Write.aborts_some_eq, hf, hc]⟩
  obtain ⟨pre, e, post, hl, he, hpre⟩ :=
    exists_first (fun e => Write.aborts self k v env e ≠ none) _ hex
  have hpre' : ∀ e ∈ pre, Write.aborts self k v env e = none :=
    fun e h => not_not.1 (hpre e h)
  obtain ⟨err, herr⟩ := Option.ne_none_iff_exists'.1 he
  obtain ⟨p, f, hp, hf, hc, -⟩ := Write.aborts_eq_some self k v env e err herr
  obtain ⟨a, o⟩ := e
  simp only at hp
  subst hp
  have hrange := Write.range_first_abort self k v env pre post a p f w hpre' hf hc
  rw [← hl] at hrange
  have hW := Write_of_some w self k v env f.msg (by rw [hrange])
  have hmem : ∀ x, x ∈ pre → x ∈ (w.nodes self).peers := by
    intro x hx; rw [hl]; exact List.mem_append_left _ hx
  refine ⟨pre, a, p, f, post, hl, hf, hc, by rw [hW], ?_, ?_⟩
  · intro hself
    rw [hW, hrange]
    simp only
    rw [stub_ServerWrite_elsewhere p _ self k v env self
      (hself a p (by rw [hl]; simp))]
    exact Write.range_dstore_of_no_handle self k v env pre w self
      (fun b q hq => hself b q (hmem _ hq))
  · intro b q hq hok
    rw [hW, hrange]
    simp only [Read]
    rw [stub_ServerWrite_keep p _ self k v env q.target
      ((Write.range_no_abort self k v env pre w hpre').2.2.2 b q hq hok)]
    rfl

/-- The abort of Write at a node whose first peer is reached and whose second peer
times out. -/
theorem Write_abort_keeps_store_witness :
    (Write World.three "N" "k" "v" Env.slowQ).2 =
      some "rpc error: code = DeadlineExceeded desc = context deadline exceeded" ∧
    ((Write World.three "N" "k" "v" Env.slowQ).1.nodes "N").dstore = [("x", "1")] ∧
    (Read (Write World.three "N" "k" "v" Env.slowQ).1 "P" "k").2 = ("v", none) := by
  obtain ⟨pre, a, p, f, post, hl, hf, hc, h1, h2, h3⟩ :=
    Write_abort_keeps_store World.three "N" "k" "v" Env.slowQ
      ⟨"Q", ⟨"Q", 2⟩, _, by decide, rfl, by decide⟩
  have hself : ∀ b q, (b, some q) ∈ (World.three.nodes "N").peers → q.target ≠ "N" := by
    intro b q hm
    have hm' : (b, some q) = ("P", some ⟨"P", 1⟩) ∨ (b, some q) = ("Q", some ⟨"Q", 2⟩) := by
      simpa [World.three] using hm
    rcases hm' with hm' | hm' <;> cases hm' <;> decide
  exact ⟨by decide, (h2 hself).trans (by decide), by decide⟩

/-- C3 at the failing input (the defect of C5, a Join naming the own address): the
node N holds a handle to itself and a handle to Q, its store is empty; Write(k, v)
sends ServerWrite to N itself, which goes through, then to Q, which times out.
Write returns the error of Q, which is not of the connection-refused class, and the
store of N holds v for k. -/
theorem Write_abort_after_own_Join :
    (World.selfJoined.nodes "N").peers = [("N", some ⟨"N", 7⟩), ("Q", some ⟨"Q", 7⟩)] ∧
    (World.selfJoined.nodes "N").dstore = [] ∧
    (Write World.selfJoined "N" "k" "v" Env.slowQ).2 =
      some "rpc error: code = DeadlineExceeded desc = context deadline exceeded" ∧
    strings.Contains "rpc error: code = DeadlineExceeded desc = context deadline exceeded"
      "connect: connection refused" = false ∧
    ((Write World.selfJoined "N" "k" "v" Env.slowQ).1.nodes "N").dstore = [("k", "v")] := by
  decide

theorem mapWF_append {β : Type} (l₁ l₂ : List (String × β)) (h : mapWF (l₁ ++ l₂)) :
    mapWF l₁ ∧ mapWF l₂ ∧ ∀ e₁ ∈ l₁, ∀ e₂ ∈ l₂, e₁.1 ≠ e₂.1 := by
  unfold mapWF at *
  rw [List.map_append, List.nodup_append] at h
  refine ⟨h.1, h.2.1, ?_⟩
  intro e₁ h₁ e₂ h₂ heq
  exact h.2.2 (List.mem_map_of_mem _ h₁) (heq ▸ List.mem_map_of_mem _ h₂)

/-- In a map, filtering out the keys of the refused entries of a first part keeps
the other entries of the first part and all of the rest. -/
theorem filter_evicted_append (r : String × Option KeystoneClient → Bool)
    (pre rest : List (String × Option KeystoneClient)) (h : mapWF (pre ++ rest)) :
    (pre ++ rest).filter (fun e => decide (e.1 ∉ (pre.filter r).map Prod.fst)) =
      pre.filter (fun e => !r e) ++ rest := by
  obtain ⟨hpre, _, hdis⟩ := mapWF_append pre rest h
  rw [List.filter_append]
  congr 1
  · apply List.filter_congr
    intro e he
    rw [Bool.eq_iff_iff]
    simp only [decide_eq_true_eq, List.mem_map, List.mem_filter, Bool.not_eq_true',
      ← Bool.not_eq_true]
    constructor
    · intro h hr; exact h ⟨e, ⟨he, hr⟩, rfl⟩
    · rintro h ⟨e', ⟨he', hr⟩, hk⟩
      rw [mapWF_unique _ hpre e' e he' he hk] at hr
      exact h hr
  · rw [List.filter_eq_self]
    intro e he
    simp only [decide_eq_true_eq, List.mem_map, List.mem_filter, not_exists, not_and, and_imp]
    intro e' he' _ hk
    exact hdis e' he' e he hk

/-- C4 as stated fails: with P refusing the connection and Q timing out, the
aborted Write has already removed P from the registry. -/
theorem Write_abort_registry_changed :
    (Write World.three "N" "k" "v" Env.downPslowQ).2 =
      some "rpc error: code = DeadlineExceeded desc = context deadline exceeded" ∧
    strings.Contains "rpc error: code = DeadlineExceeded desc = context deadline exceeded"
      "connect: connection refused" = false ∧
    (World.three.nodes "N").peers =
      [("N", none), ("P", some ⟨"P", 1⟩), ("Q", some ⟨"Q", 2⟩)] ∧
    ((Write World.three "N" "k" "v" Env.downPslowQ).1.nodes "N").peers =
      [("N", none), ("Q", some ⟨"Q", 2⟩)] := by
  decide

/-- C4, amended: after a Write aborted by an error that is not of the
connection-refused class, the registry is the prior registry without the entries
whose call failed with a connection-refused-class error before the abort; the
aborting entry and the entries not yet visited are kept, and the registry is
unchanged when no earlier call was refused. -/
theorem Write_abort_registry (w : World) (self k v : String) (env : Env) (err : String)
    (hwf : mapWF (w.nodes self).peers)
    (habort : (Write w self k v env).2 = some err) :
    ∃ pre a p post,
      (w.nodes self).peers = pre ++ (a, some p) :: post ∧
      (∀ e ∈ pre, Write.aborts self k v env e = none) ∧
      Write.aborts self k v env (a, some p) = some err ∧
      ((Write w self k v env).1.nodes self).peers =
        pre.filter (fun e => !Write.refused self k v env e) ++ (a, some p) :: post ∧
      ((∀ e ∈ pre, Write.refused self k v env e = false) →
        ((Write w self k v env).1.nodes self).peers = (w.nodes self).peers) := by
  have hex : ∃ e ∈ (w.nodes self).peers, Write.aborts self k v env e ≠ none := by
    by_contra hno
    have hna : ∀ e ∈ (w.nodes self).peers, Write.aborts self k v env e = none := by
      intro e he
      by_contra h
      exact hno ⟨e, he, h⟩
    rw [Write_of_none w self k v env (Write.range_no_abort self k v env _ w hna).1] at habort
    cases habort
  obtain ⟨pre, e, post, hl, he, hpre⟩ :=
    exists_first (fun e => Write.aborts self k v env e ≠ none) _ hex
  have hpre' : ∀ e ∈ pre, Write.aborts self k v env e = none :=
    fun e h => not_not.1 (hpre e h)
  obtain ⟨err', herr⟩ := Option.ne_none_iff_exists'.1 he
  obtain ⟨p, f, hp, hf, hc, hmsg⟩ := Write.aborts_eq_some self k v env e err' herr
  obtain ⟨a, o⟩ := e
  simp only at hp
  subst hp
  have hrange := Write.range_first_abort self k v env pre post a p f w hpre' hf hc
  rw [← hl] at hrange
  have hW := Write_of_some w self k v env f.msg (by rw [hrange])
  have herr' : err' = err := by
    rw [hW] at habort
    simp only [Option.some.injEq] at habort
    rw [← hmsg, habort]
  subst herr'
  have hpeers : ((Write w self k v env).1.nodes self).peers =
      pre.filter (fun e => !Write.refused self k v env e) ++ (a, some p) :: post := by
    rw [hW, hrange]
    simp only
    rw [stub_ServerWrite_peers, (Write.range_no_abort self k v env pre w hpre').2.1, hl]
    exact filter_evicted_append _ pre _ (hl ▸ hwf)
  refine ⟨pre, a, p, post, hl, hpre', herr, hpeers, ?_⟩
  intro hnone
  rw [hpeers, hl, List.filter_eq_self.2 (fun e he => by simp [hnone e he])]

/-- C4, amended, at a node whose peer P is refused before the call to Q times out. -/
theorem Write_abort_registry_witness :
    ∃ pre a p post,
      (World.three.nodes "N").peers = pre ++ (a, some p) :: post ∧
      ((Write World.three "N" "k" "v" Env.downPslowQ).1.nodes "N").peers =
        pre.filter (fun e => !Write.refused "N" "k" "v" Env.downPslowQ e) ++
          (a, some p) :: post := by
  obtain ⟨pre, a, p, post, h1, _, _, h4, _⟩ :=
    Write_abort_registry World.three "N" "k" "v" Env.downPslowQ
      "rpc error: code = DeadlineExceeded desc = context deadline exceeded"
      (by decide) (by decide)
  exact ⟨pre, a, p, post, h1, h4⟩

/-! ## Serving: what can re-enter the registry -/

theorem Write_peers_subset (w : World) (self k v : String) (env : Env) :
    ∀ e, e ∈ ((Write w self k v env).1.nodes self).peers → e ∈ (w.nodes self).peers := by
  intro e he
  cases hr : (Write.range self k v env (w.nodes self).peers w).2 with
  | none =>
    rw [Write_of_none w self k v env hr] at he
    simp only [setNode_nodes_self] at he
    exact Write.range_peers_subset self k v env _ w e he
  | some err =>
    rw [Write_of_some w self k v env err hr] at he
    exact Write.range_peers_subset self k v env _ w e he

theorem mapGet_none_of_subset {β : Type} (m m' : List (String × β)) (k : String)
    (hsub : ∀ e, e ∈ m' → e ∈ m) (h : mapGet m k = none) : mapGet m' k = none := by
  rw [mapGet_eq_none_iff] at *
  intro hk
  obtain ⟨e, he, rfl⟩ := List.mem_map.1 hk
  exact h (List.mem_map_of_mem _ (hsub e he))

theorem rearrange_perm (order m : List (String × Option KeystoneClient)) :
    (rearrange order m).Perm m := by
  unfold rearrange
  split
  · assumption
  · exact List.Perm.refl _

theorem Join_peers_absent (w : World) (self a P : String) (env : Env)
    (hjoin : a = P → ∃ e, env.dial self P = .error e)
    (h : mapGet (w.nodes self).peers P = none) :
    mapGet ((Join w self a env).1.nodes self).peers P = none := by
  unfold Join connectPeer
  cases hd : env.dial self a with
  | error e => simpa using h
  | ok conn =>
    have hne : P ≠ a := by
      rintro rfl
      obtain ⟨e, he⟩ := hjoin rfl
      rw [he] at hd
      cases hd
    simp [mapGet_mapSet_ne _ _ _ _ hne, h]

/-- A request other than a Join that connects to `P` leaves `P` out of the registry. -/
theorem handle_peers_absent (w : World) (self P : String) (env : Env) (r : Request)
    (hjoin : r = Request.Join P → ∃ e, env.dial self P = .error e)
    (h : mapGet (w.nodes self).peers P = none) :
    mapGet ((handle w self env r).nodes self).peers P = none := by
  cases r with
  | Read key => exact h
  | Write key value =>
    exact mapGet_none_of_subset _ _ P (Write_peers_subset w self key value env) h
  | ServerWrite key value => simpa [handle, ServerWrite] using h
  | GetClusterInfo => exact h
  | Join a => exact Join_peers_absent w self a P env (fun ha => hjoin (by rw [ha])) h

theorem serve_peers_absent (self P : String) (steps : List Step) :
    ∀ (w : World),
      (∀ s ∈ steps, s.request = Request.Join P → ∃ e, s.env.dial self P = .error e) →
      mapGet (w.nodes self).peers P = none →
      mapGet ((serve self steps w).nodes self).peers P = none := by
  induction steps with
  | nil => intro w _ h; exact h
  | cons s rest ih =>
    intro w hjoin h
    simp only [serve]
    apply ih _ (fun s' hs' => hjoin s' (List.mem_cons_of_mem _ hs'))
    apply handle_peers_absent _ self P s.env s.request (hjoin s (List.mem_cons_self _ _))
    simp only [setNode_nodes_self]
    rw [mapGet_eq_none_iff] at *
    intro hk
    exact h ((rearrange_perm s.order _).map Prod.fst |>.mem_iff.1 hk)

/-- C9 as stated fails: after the Write on N that removed the refused peer P, a Join
naming P puts P back into the registry of N. -/
theorem evicted_peer_rejoins :
    mapGet (World.three.nodes "N").peers "P" = some (some ⟨"P", 1⟩) ∧
    mapGet ((Write World.three "N" "k" "v" Env.downP).1.nodes "N").peers "P" = none ∧
    mapGet ((serve "N" [⟨Request.Join "P", Env.calm, []⟩]
      (Write World.three "N" "k" "v" Env.downP).1).nodes "N").peers "P" =
        some (some ⟨"P", 7⟩) := by
  decide

/-- C9, amended: once a Write on a node has removed the peer P from the registry,
P stays absent from the registry of that node after every finite sequence of Read,
Write, ServerWrite, GetClusterInfo and Join calls on that node in which no Join
naming P connects, whatever the answers of the network and the order in which the
registry is ranged over. -/
theorem evicted_stays_absent (w : World) (self k v P : String) (env : Env)
    (steps : List Step)
    (_hbefore : mapGet (w.nodes self).peers P ≠ none)
    (hafter : mapGet ((Write w self k v env).1.nodes self).peers P = none)
    (hjoin : ∀ s ∈ steps, s.request = Request.Join P → ∃ e, s.env.dial self P = .error e) :
    mapGet ((serve self steps (Write w self k v env).1).nodes self).peers P = none :=
  serve_peers_absent self P steps _ hjoin hafter

/-- C9, amended, at a node that evicts P and then serves a Write, a Join of another
node, a Read and a ServerWrite. -/
theorem evicted_stays_absent_witness :
    mapGet ((serve "N"
      [⟨Request.Write "y" "2", Env.downPslowQ, [("Q", some ⟨"Q", 2⟩), ("N", none)]⟩,
       ⟨Request.Join "R", Env.calm, []⟩, ⟨Request.Read "y", Env.calm, []⟩,
       ⟨Request.ServerWrite "z" "3", Env.calm, []⟩]
      (Write World.three "N" "k" "v" Env.downP).1).nodes "N").peers "P" = none :=
  evicted_stays_absent World.three "N" "k" "v" "P" Env.downP _ (by decide) (by decide)
    (by
      intro s hs hreq
      simp only [List.mem_cons, List.mem_singleton, List.not_mem_nil, or_false] at hs
      rcases hs with rfl | rfl | rfl | rfl <;> exact absurd hreq (by decide))

/-! ## Joining: the fan-out of `joinCluster`, case by case -/

theorem connectPeer_nodes (w : World) (self a : String) (env : Env) :
    (connectPeer w self a env).1.nodes = w.nodes := by
  unfold connectPeer
  cases env.dial self a <;> rfl

theorem joinCluster.range_cons_self (self : String) (env : Env) (addr : String)
    (rest : List String) (w : World) (h : addr = (w.nodes self).address) :
    joinCluster.range self env (addr :: rest) w = joinCluster.range self env rest w := by
  simp [joinCluster.range, h]

theorem joinCluster.range_cons_known (self : String) (env : Env) (addr : String)
    (rest : List String) (w : World) (peer : KeystoneClient)
    (h : addr ≠ (w.nodes self).address)
    (hg : mapGet (w.nodes self).peers addr = some (some peer)) :
    joinCluster.range self env (addr :: rest) w =
      joinCluster.range self env rest (peer.Join w self (w.nodes self).address env).1 := by
  simp [joinCluster.range, h, hg]

theorem joinCluster.range_cons_nil_handle (self : String) (env : Env) (addr : String)
    (rest : List String) (w : World)
    (h : addr ≠ (w.nodes self).address)
    (hg : mapGet (w.nodes self).peers addr = some none) :
    joinCluster.range self env (addr :: rest) w =
      (w, some "panic: invalid memory address or nil pointer dereference") := by
  simp [joinCluster.range, h, hg]

theorem joinCluster.range_cons_dial_error (self : String) (env : Env) (addr : String)
    (rest : List String) (w : World) (err : String)
    (h : addr ≠ (w.nodes self).address)
    (hg : mapGet (w.nodes self).peers addr = none)
    (hd : env.dial self addr = .error err) :
    joinCluster.range self env (addr :: rest) w =
      (w.record self (Call.Dial addr),
        failOnErr ("Failed connect to peer: " ++ addr) (some err)) := by
  simp [joinCluster.range, h, hg, connectPeer, hd, failOnErr]

/-- The world after a node registered the handle it just dialled. -/
theorem joinCluster.range_cons_new (self : String) (env : Env) (addr : String)
    (rest : List String) (w : World) (conn : Nat)
    (h : addr ≠ (w.nodes self).address)
    (hg : mapGet (w.nodes self).peers addr = none)
    (hd : env.dial self addr = .ok conn) :
    joinCluster.range self env (addr :: rest) w =
      joinCluster.range self env rest
        ((KeystoneClient.mk addr conn).Join
          ((w.record self (Call.Dial addr)).setNode self
            { w.nodes self with peers := mapSet (w.nodes self).peers addr (some ⟨addr, conn⟩) })
          self (w.nodes self).address env).1 := by
  simp [joinCluster.range, h, hg, connectPeer, hd, mapGet_mapSet_self]

theorem Join_node (w : World) (self a : String) (env : Env) (x : String) :
    ((Join w self a env).1.nodes x).dstore = (w.nodes x).dstore ∧
    ((Join w self a env).1.nodes x).address = (w.nodes x).address ∧
    (x ≠ self → ((Join w self a env).1.nodes x).peers = (w.nodes x).peers) ∧
    (∀ k, k ∈ keys (w.nodes x).peers → k ∈ keys ((Join w self a env).1.nodes x).peers) := by
  unfold Join connectPeer
  cases env.dial self a with
  | error e => simp
  | ok conn =>
    by_cases hx : x = self
    · subst hx
      simp only [setNode_nodes_self, record_nodes, ne_eq, not_true_eq_false, false_implies,
        true_and, keys]
      intro k hk
      exact (mem_keys_mapSet _ _ _ _).2 (Or.inr hk)
    · simp [setNode_nodes_ne _ _ _ _ hx, hx]

theorem stub_Join_node (peer : KeystoneClient) (w : World) (c a : String) (env : Env)
    (x : String) :
    ((peer.Join w c a env).1.nodes x).dstore = (w.nodes x).dstore ∧
    ((peer.Join w c a env).1.nodes x).address = (w.nodes x).address ∧
    (x ≠ peer.target → ((peer.Join w c a env).1.nodes x).peers = (w.nodes x).peers) ∧
    (∀ k, k ∈ keys (w.nodes x).peers → k ∈ keys ((peer.Join w c a env).1.nodes x).peers) := by
  have h := Join_node (w.record c (Call.Join peer a)) peer.target a env x
  unfold KeystoneClient.Join
  cases env.fault c (Call.Join peer a) with
  | none => exact h
  | some f =>
    cases hd : f.delivered with
    | true => simpa [hd] using h
    | false => simp [hd]

/-- Any relation between worlds that is reflexive, transitive and holds across a
dial, across the registration of a dialled handle and across a Join call holds
across the fan-out of `joinCluster`. -/
theorem joinCluster.fanout_rel (self : String) (env : Env) (R : World → World → Prop)
    (hrefl : ∀ w, R w w) (htrans : ∀ a b c, R a b → R b c → R a c)
    (hdial : ∀ w addr, R w (w.record self (Call.Dial addr)))
    (hreg : ∀ w addr conn, R w (w.setNode self
      { w.nodes self with peers := mapSet (w.nodes self).peers addr (some ⟨addr, conn⟩) }))
    (hjoin : ∀ w (peer : KeystoneClient) a, R w (peer.Join w self a env).1) :
    ∀ (l : List String) (w : World), R w (joinCluster.range self env l w).1 := by
  intro l
  induction l with
  | nil => intro w; simpa [joinCluster.range] using hrefl w
  | cons addr rest ih =>
    intro w
    by_cases h : addr = (w.nodes self).address
    · rw [joinCluster.range_cons_self _ _ _ _ _ h]; exact ih w
    · cases hg : mapGet (w.nodes self).peers addr with
      | some o =>
        cases o with
        | none => rw [joinCluster.range_cons_nil_handle _ _ _ _ _ h hg]; exact hrefl w
        | some peer =>
          rw [joinCluster.range_cons_known _ _ _ _ _ peer h hg]
          exact htrans _ _ _ (hjoin w peer _) (ih _)
      | none =>
        cases hd : env.dial self addr with
        | error err =>
          rw [joinCluster.range_cons_dial_error _ _ _ _ _ err h hg hd]; exact hdial w addr
        | ok conn =>
          rw [joinCluster.range_cons_new _ _ _ _ _ conn h hg hd]
          exact htrans _ _ _ (htrans _ _ _ (htrans _ _ _ (hdial w addr) (hreg _ addr conn))
            (hjoin _ _ _)) (ih _)

theorem joinCluster.range_dstore (self : String) (env : Env) (l : List String) (w : World)
    (x : String) :
    ((joinCluster.range self env l w).1.nodes x).dstore = (w.nodes x).dstore := by
  refine joinCluster.fanout_rel self env
    (fun w w' => ((w'.nodes x).dstore = (w.nodes x).dstore))
    (fun _ => rfl) (fun _ _ _ h1 h2 => h2.trans h1) ?_ ?_ ?_ l w
  · intro w addr; rfl
  · intro w addr conn
    by_cases hx : x = self
    · subst hx; simp
    · rw [setNode_nodes_ne _ _ _ _ hx]
  · intro w peer a; exact (stub_Join_node peer w self a env x).1

theorem joinCluster.fanout_address (self : String) (env : Env) (l : List String) (w : World)
    (x : String) :
    ((joinCluster.range self env l w).1.nodes x).address = (w.nodes x).address := by
  refine joinCluster.fanout_rel self env
    (fun w w' => ((w'.nodes x).address = (w.nodes x).address))
    (fun _ => rfl) (fun _ _ _ h1 h2 => h2.trans h1) ?_ ?_ ?_ l w
  · intro w addr; rfl
  · intro w addr conn
    by_cases hx : x = self
    · subst hx; simp
    · rw [setNode_nodes_ne _ _ _ _ hx]
  · intro w peer a; exact (stub_Join_node peer w self a env x).2.1

theorem joinCluster.range_keys_mono (self : String) (env : Env) (l : List String) (w : World)
    (x k : String) (hk : k ∈ keys (w.nodes x).peers) :
    k ∈ keys ((joinCluster.range self env l w).1.nodes x).peers := by
  refine joinCluster.fanout_rel self env
    (fun w w' => (k ∈ keys (w.nodes x).peers → k ∈ keys (w'.nodes x).peers))
    (fun _ h => h) (fun _ _ _ h1 h2 h => h2 (h1 h)) ?_ ?_ ?_ l w hk
  · intro w addr h; exact h
  · intro w addr conn h
    by_cases hx : x = self
    · subst hx
      simp only [setNode_nodes_self, keys]
      exact (mem_keys_mapSet _ _ _ _).2 (Or.inr h)
    · rwa [setNode_nodes_ne _ _ _ _ hx]
  · intro w peer a h; exact (stub_Join_node peer w self a env x).2.2.2 k h

/-! ## Joining: the store -/

theorem mapGet_merge (R L : List (String × String)) (hR : mapWF R) (k : String) :
    mapGet (R.foldl (fun d kv => mapSet d kv.1 kv.2) L) k =
      match mapGet R k with
      | some v => some v
      | none => mapGet L k := by
  induction R generalizing L with
  | nil => simp [mapGet]
  | cons e rest ih =>
    obtain ⟨k1, v1⟩ := e
    simp only [mapWF, List.map_cons, List.nodup_cons] at hR
    rw [List.foldl_cons, ih _ hR.2]
    by_cases h1 : k1 = k
    · subst h1
      have : mapGet rest k1 = none := (mapGet_eq_none_iff _ _).2 hR.1
      simp [mapGet, this, mapGet_mapSet_self]
    · simp only [mapGet, h1, if_false]
      rw [mapGet_mapSet_ne _ _ _ _ (Ne.symm h1)]

/-- The store of the joining node once the view of the seed is merged. -/
theorem joinCluster_dstore (w : World) (self seed : String) (env : Env) (conn : Nat)
    (hdial : env.dial self seed = .ok conn)
    (hinfo : env.fault self (Call.GetClusterInfo ⟨seed, conn⟩) = none) :
    ((joinCluster w self seed env).1.nodes self).dstore =
      (w.nodes seed).dstore.foldl (fun d kv => mapSet d kv.1 kv.2) (w.nodes self).dstore := by
  unfold joinCluster connectPeer
  simp only [hdial, KeystoneClient.GetClusterInfo, hinfo, GetClusterInfo, record_nodes]
  rw [joinCluster.range_dstore]
  by_cases hs : seed = self
  · subst hs; simp
  · simp [setNode_nodes_ne _ _ _ _ hs]

/-- C7: when the seed answers GetClusterInfo with its store R (a map), the store of
the joining node after joinCluster maps every key of R to the value R has for it,
and every key that R lacks to what the local store L had for it: a key of L keeps
the value of L, a key of neither store stays absent. -/
theorem joinCluster_merges_store (w : World) (self seed : String) (env : Env) (conn : Nat)
    (hR : mapWF (w.nodes seed).dstore)
    (hdial : env.dial self seed = .ok conn)
    (hinfo : env.fault self (Call.GetClusterInfo ⟨seed, conn⟩) = none) :
    (∀ k v, mapGet (w.nodes seed).dstore k = some v →
      mapGet ((joinCluster w self seed env).1.nodes self).dstore k = some v) ∧
    (∀ k, mapGet (w.nodes seed).dstore k = none →
      mapGet ((joinCluster w self seed env).1.nodes self).dstore k =
        mapGet (w.nodes self).dstore k) := by
  rw [joinCluster_dstore w self seed env conn hdial hinfo]
  constructor
  · intro k v h; rw [mapGet_merge _ _ hR, h]
  · intro k h; rw [mapGet_merge _ _ hR, h]

/-- C7 at a node B whose local store overlaps the store of its seed A. -/
theorem joinCluster_merges_store_witness :
    mapGet ((joinCluster World.pair "B" "A" Env.calm).1.nodes "B").dstore "x" = some "1" ∧
    mapGet ((joinCluster World.pair "B" "A" Env.calm).1.nodes "B").dstore "z" = some "9" ∧
    mapGet ((joinCluster World.pair "B" "A" Env.calm).1.nodes "B").dstore "q" = none :=
  have h := joinCluster_merges_store World.pair "B" "A" Env.calm 7 (by decide) rfl rfl
  ⟨h.1 "x" "1" (by decide), (h.2 "z" (by decide)).trans (by decide),
    (h.2 "q" (by decide)).trans (by decide)⟩

/-! ## Joining: the registries -/

theorem mem_keys_of_mapGet {β : Type} (m : List (String × β)) (k : String) (v : β)
    (h : mapGet m k = some v) : k ∈ m.map Prod.fst :=
  List.mem_map.2 ⟨(k, v), mem_of_mapGet m k v h, rfl⟩

theorem stub_Join_ok (peer : KeystoneClient) (w : World) (c a : String) (env : Env)
    (conn : Nat) (hf : env.fault c (Call.Join peer a) = none)
    (hd : env.dial peer.target a = .ok conn) :
    a ∈ keys ((peer.Join w c a env).1.nodes peer.target).peers := by
  unfold KeystoneClient.Join Join connectPeer
  simp only [hf, hd, setNode_nodes_self, keys]
  exact (mem_keys_mapSet _ _ _ _).2 (Or.inl rfl)

theorem joining_after_Join (w : World) (self : String) (peer : KeystoneClient) (a : String)
    (env : Env) (hp : peer.target ≠ self) (h : joining w self) :
    joining (peer.Join w self a env).1 self := by
  obtain ⟨h1, h2, h3, _⟩ := stub_Join_node peer w self a env self
  unfold joining
  rw [h2, h3 (Ne.symm hp)]
  exact h

theorem joining_after_register (w : World) (self addr : String) (conn : Nat)
    (h : joining w self) :
    joining ((w.record self (Call.Dial addr)).setNode self
      { w.nodes self with peers := mapSet (w.nodes self).peers addr (some ⟨addr, conn⟩) })
      self := by
  unfold joining at *
  simp only [setNode_nodes_self]
  refine ⟨h.1, ?_⟩
  intro a o hg ha
  by_cases hq : a = addr
  · subst hq
    rw [mapGet_mapSet_self] at hg
    cases hg
    exact ⟨conn, rfl⟩
  · rw [mapGet_mapSet_ne _ _ _ _ hq] at hg
    exact h.2 a o hg ha

/-- When every dial and every call goes through, the fan-out of `joinCluster` ends
without a fatal exit, and every listed address other than the node's own is then in
the registry of the node and has the node's address in its own registry. -/
theorem joinCluster.range_all_ok (self : String) (env : Env)
    (hdial : ∀ c a, ∃ conn, env.dial c a = .ok conn)
    (hfault : ∀ c call, env.fault c call = none) :
    ∀ (l : List String) (w : World), joining w self →
      (joinCluster.range self env l w).2 = none ∧
      ∀ a ∈ l, a ≠ self →
        a ∈ keys ((joinCluster.range self env l w).1.nodes self).peers ∧
        self ∈ keys ((joinCluster.range self env l w).1.nodes a).peers := by
  intro l
  induction l with
  | nil => intro w _; simp [joinCluster.range]
  | cons addr rest ih =>
    intro w hw
    by_cases h : addr = (w.nodes self).address
    · rw [joinCluster.range_cons_self _ _ _ _ _ h]
      obtain ⟨i1, i2⟩ := ih w hw
      refine ⟨i1, ?_⟩
      intro a ha hne
      rcases List.mem_cons.1 ha with ha | ha
      · rw [ha, h, hw.1] at hne; exact absurd rfl hne
      · exact i2 a ha hne
    · have hne : addr ≠ self := by rw [hw.1] at h; exact h
      -- the world in which the handle of `addr` is registered, and that handle
      have hreg : ∃ w1 conn, joining w1 self ∧
          mapGet (w1.nodes self).peers addr = some (some ⟨addr, conn⟩) ∧
          joinCluster.range self env (addr :: rest) w =
            joinCluster.range self env rest
              ((KeystoneClient.mk addr conn).Join w1 self self env).1 := by
        cases hg : mapGet (w.nodes self).peers addr with
        | some o =>
          obtain ⟨c, hc⟩ := hw.2 addr o hg hne
          subst hc
          refine ⟨w, c, hw, hg, ?_⟩
          rw [joinCluster.range_cons_known _ _ _ _ _ _ h hg, hw.1]
        | none =>
          obtain ⟨conn, hd⟩ := hdial self addr
          refine ⟨_, conn, joining_after_register w self addr conn hw, ?_, ?_⟩
          · simp [mapGet_mapSet_self]
          · rw [joinCluster.range_cons_new _ _ _ _ _ conn h hg hd, hw.1]
      obtain ⟨w1, conn, hw1, hg1, heq⟩ := hreg
      rw [heq]
      have hw2 := joining_after_Join w1 self ⟨addr, conn⟩ self env hne hw1
      obtain ⟨i1, i2⟩ := ih _ hw2
      refine ⟨i1, ?_⟩
      intro a ha hane
      rcases List.mem_cons.1 ha with ha | ha
      · subst ha
        obtain ⟨conn', hd'⟩ := hdial a self
        constructor
        · apply joinCluster.range_keys_mono
          rw [(stub_Join_node ⟨a, conn⟩ w1 self self env self).2.2.1 (Ne.symm hne)]
          exact mem_keys_of_mapGet _ _ _ hg1
        · apply joinCluster.range_keys_mono
          exact stub_Join_ok ⟨a, conn⟩ w1 self self env conn' (hfault _ _) hd'
      · exact i2 a ha hane

/-- The bootstrap of B with seed A, once the seed is registered and its view merged:
what is left is the fan-out over the view of A. -/
theorem main_with_seed (w : World) (A B prog : String) (env : Env) (conn : Nat)
    (hAB : A ≠ B) (hd : env.dial B A = .ok conn)
    (hf : env.fault B (Call.GetClusterInfo ⟨A, conn⟩) = none) :
    ∃ w4, main w B [prog, A] env =
        joinCluster.range B env (keys (w.nodes A).peers) w4 ∧
      joining w4 B ∧ A ∈ keys (w4.nodes B).peers ∧ B ∈ keys (w4.nodes B).peers := by
  simp only [main, joinCluster, connectPeer, hd, KeystoneClient.GetClusterInfo, hf,
    GetClusterInfo, List.length_cons, List.length_nil, List.getD_cons_succ, List.getD_cons_zero,
    record_nodes, setNode_nodes_self, setNode_nodes_ne _ _ _ _ hAB]
  refine ⟨((((w.setNode B { address := B, dstore := [], peers := [(B, none)] }).record B
      (Call.Dial A)).setNode B
        { address := B, dstore := [],
          peers := mapSet [(B, none)] A (some { target := A, conn := conn }) }).record
      B (Call.GetClusterInfo { target := A, conn := conn })).setNode B
        { address := B, dstore := List.foldl (fun d kv => mapSet d kv.1 kv.2) [] (w.nodes A).dstore,
          peers := mapSet [(B, none)] A (some { target := A, conn := conn }) }, ?_, ?_, ?_, ?_⟩
  · simp
  · refine ⟨by simp, ?_⟩
    intro a h hg ha
    simp only [setNode_nodes_self, mapSet, mapGet, Ne.symm hAB, if_false] at hg
    rw [if_neg (Ne.symm ha)] at hg
    by_cases hq : A = a
    · subst hq; simp at hg; exact ⟨conn, hg.symm⟩
    · simp [hq] at hg
  · simp [keys, mapSet, Ne.symm hAB]
  · simp [keys, mapSet, Ne.symm hAB]

/-- The mesh after a bootstrap: when every connection and every call during the
bootstrap of B with seed A goes through, the bootstrap ends without a fatal exit,
the registry of B contains the address of A, the registry of A contains the address
of B when A is in its own view, and for every address of the view of A the registry
of B contains it and, when it is not B, the registry of the node at that address
contains B. -/
theorem join_symmetry (w : World) (A B prog : String) (env : Env)
    (hAB : A ≠ B)
    (hdial : ∀ c a, ∃ conn, env.dial c a = .ok conn)
    (hfault : ∀ c call, env.fault c call = none) :
    (main w B [prog, A] env).2 = none ∧
    A ∈ keys ((main w B [prog, A] env).1.nodes B).peers ∧
    (A ∈ keys (w.nodes A).peers → B ∈ keys ((main w B [prog, A] env).1.nodes A).peers) ∧
    (∀ a ∈ keys (w.nodes A).peers,
      a ∈ keys ((main w B [prog, A] env).1.nodes B).peers ∧
      (a ≠ B → B ∈ keys ((main w B [prog, A] env).1.nodes a).peers)) := by
  obtain ⟨conn, hd⟩ := hdial B A
  obtain ⟨w4, heq, hj, hA4, hB4⟩ := main_with_seed w A B prog env conn hAB hd (hfault _ _)
  rw [heq]
  obtain ⟨h1, h2⟩ := joinCluster.range_all_ok B env hdial hfault (keys (w.nodes A).peers) w4 hj
  refine ⟨h1, joinCluster.range_keys_mono B env _ w4 B A hA4, fun hA => (h2 A hA hAB).2, ?_⟩
  intro a ha
  constructor
  · by_cases hb : a = B
    · rw [hb]; exact joinCluster.range_keys_mono B env _ w4 B B hB4
    · exact (h2 a ha hb).1
  · intro hb; exact (h2 a ha hb).2

/-- The mesh after B joined the cluster of A and C through A. -/
theorem join_symmetry_witness :
    (main World.duo "B" ["server", "A"] Env.calm).2 = none ∧
    "A" ∈ keys ((main World.duo "B" ["server", "A"] Env.calm).1.nodes "B").peers ∧
    "B" ∈ keys ((main World.duo "B" ["server", "A"] Env.calm).1.nodes "A").peers ∧
    "C" ∈ keys ((main World.duo "B" ["server", "A"] Env.calm).1.nodes "B").peers ∧
    "B" ∈ keys ((main World.duo "B" ["server", "A"] Env.calm).1.nodes "C").peers :=
  have h := join_symmetry World.duo "A" "B" "server" Env.calm (by decide)
    (fun _ _ => ⟨7, rfl⟩) (fun _ _ => rfl)
  ⟨h.1, h.2.1, h.2.2.1 (by decide), (h.2.2.2 "C" (by decide)).1,
    (h.2.2.2 "C" (by decide)).2 (by decide)⟩

/-- C5 at the failing input: a node that started alone holds its own address
without a handle; after it served a Join naming its own address, the entry of its
own address holds a live handle. -/
theorem Join_own_address_replaces_self_entry :
    mapGet ((main World.fresh "N" ["server"] Env.calm).1.nodes "N").peers "N" = some none ∧
    mapGet ((serve "N" [⟨Request.Join "N", Env.calm, []⟩]
      (main World.fresh "N" ["server"] Env.calm).1).nodes "N").peers "N" =
        some (some ⟨"N", 7⟩) := by
  decide

/-! ## Failures during the bootstrap -/

/-- C8 at the failing input: the Join call of B on its seed A is lost, yet the
bootstrap of B ends without a fatal exit; B holds A in its registry while A does
not hold B. -/
theorem main_survives_lost_Join :
    ("B", Call.Join ⟨"A", 7⟩ "B") ∈
      (main World.fresh "B" ["server", "A"] Env.joinLost).1.log ∧
    Env.joinLost.fault "B" (Call.Join ⟨"A", 7⟩ "B") =
      some ⟨"rpc error: code = Unavailable desc = transport is closing", false⟩ ∧
    (main World.fresh "B" ["server", "A"] Env.joinLost).2 = none ∧
    mapGet ((main World.fresh "B" ["server", "A"] Env.joinLost).1.nodes "B").peers "A" =
      some (some ⟨"A", 7⟩) ∧
    mapGet ((main World.fresh "B" ["server", "A"] Env.joinLost).1.nodes "A").peers "B" =
      none := by
  decide

/-- A failed connection to the seed is fatal. -/
theorem joinCluster_fatal_of_seed_dial (w : World) (self seed : String) (env : Env)
    (err : String) (hd : env.dial self seed = .error err) :
    (joinCluster w self seed env).2 ≠ none := by
  simp [joinCluster, connectPeer, hd, failOnErr]

/-- A failed GetClusterInfo call on the seed is fatal. -/
theorem joinCluster_fatal_of_info (w : World) (self seed : String) (env : Env)
    (conn : Nat) (f : Fault) (hd : env.dial self seed = .ok conn)
    (hf : env.fault self (Call.GetClusterInfo ⟨seed, conn⟩) = some f) :
    (joinCluster w self seed env).2 ≠ none := by
  simp [joinCluster, connectPeer, hd, KeystoneClient.GetClusterInfo, hf, failOnErr]

/-- A failed connection to a listed peer that is not yet in the registry is fatal. -/
theorem joinCluster.range_fatal_of_dial (self : String) (env : Env) (addr err : String)
    (hd : env.dial self addr = .error err) :
    ∀ (l : List String) (w : World), addr ∈ l → addr ≠ (w.nodes self).address →
      mapGet (w.nodes self).peers addr = none →
      (joinCluster.range self env l w).2 ≠ none := by
  intro l
  induction l with
  | nil => intro w h; simp at h
  | cons a rest ih =>
    intro w hmem hne habs
    have key : ∀ (peer : KeystoneClient) (w1 : World),
        (w1.nodes self).address = (w.nodes self).address →
        mapGet (w1.nodes self).peers addr = none → a ≠ addr →
        (joinCluster.range self env rest
          (peer.Join w1 self (w.nodes self).address env).1).2 ≠ none := by
      intro peer w1 hadr habs1 hna
      have hin : addr ∈ rest := by
        rcases List.mem_cons.1 hmem with h | h
        · exact absurd h.symm hna
        · exact h
      apply ih _ hin
      · rw [(stub_Join_node peer w1 self _ env self).2.1, hadr]; exact hne
      · unfold KeystoneClient.Join Join connectPeer
        by_cases hp : peer.target = self
        · cases env.fault self (Call.Join peer (w.nodes self).address) with
          | none =>
            cases env.dial peer.target (w.nodes self).address with
            | error e => simpa using habs1
            | ok c => simp [hp, mapGet_mapSet_ne _ _ _ _ hne, habs1]
          | some f =>
            cases hdl : f.delivered with
            | false => simpa [hdl] using habs1
            | true =>
              cases env.dial peer.target (w.nodes self).address with
              | error e => simpa [hdl] using habs1
              | ok c => simp [hdl, hp, mapGet_mapSet_ne _ _ _ _ hne, habs1]
        · cases env.fault self (Call.Join peer (w.nodes self).address) with
          | none =>
            cases env.dial peer.target (w.nodes self).address with
            | error e => simpa using habs1
            | ok c => simp [setNode_nodes_ne _ _ _ _ (Ne.symm hp), habs1]
          | some f =>
            cases hdl : f.delivered with
            | false => simpa [hdl] using habs1
            | true =>
              cases env.dial peer.target (w.nodes self).address with
              | error e => simpa [hdl] using habs1
              | ok c => simp [hdl, setNode_nodes_ne _ _ _ _ (Ne.symm hp), habs1]
    by_cases h : a = (w.nodes self).address
    · rw [joinCluster.range_cons_self _ _ _ _ _ h]
      have hin : addr ∈ rest := by
        rcases List.mem_cons.1 hmem with h' | h'
        · rw [h', h] at hne; exact absurd rfl hne
        · exact h'
      exact ih w hin hne habs
    · cases hg : mapGet (w.nodes self).peers a with
      | some o =>
        have hna : a ≠ addr := by rintro rfl; rw [habs] at hg; cases hg
        cases o with
        | none => rw [joinCluster.range_cons_nil_handle _ _ _ _ _ h hg]; simp
        | some peer =>
          rw [joinCluster.range_cons_known _ _ _ _ _ peer h hg]
          exact key peer w rfl habs hna
      | none =>
        cases hda : env.dial self a with
        | error e =>
          rw [joinCluster.range_cons_dial_error _ _ _ _ _ e h hg hda]; simp [failOnErr]
        | ok conn =>
          have hna : a ≠ addr := by rintro rfl; rw [hd] at hda; cases hda
          rw [joinCluster.range_cons_new _ _ _ _ _ conn h hg hda]
          apply key
          · simp
          · simp [mapGet_mapSet_ne _ _ _ _ (Ne.symm hna), habs]
          · exact hna

/-- A failed connection to a peer that the view of the seed lists and the registry
lacks is fatal. -/
theorem joinCluster_fatal_of_peer_dial (w : World) (self seed addr err : String) (env : Env)
    (conn : Nat) (hseed : seed ≠ self)
    (hd : env.dial self seed = .ok conn)
    (hinfo : env.fault self (Call.GetClusterInfo ⟨seed, conn⟩) = none)
    (hlisted : addr ∈ keys (w.nodes seed).peers)
    (hne : addr ≠ (w.nodes self).address) (hns : addr ≠ seed)
    (habs : mapGet (w.nodes self).peers addr = none)
    (hda : env.dial self addr = .error err) :
    (joinCluster w self seed env).2 ≠ none := by
  unfold joinCluster connectPeer
  simp only [hd, KeystoneClient.GetClusterInfo, hinfo, GetClusterInfo, record_nodes,
    setNode_nodes_ne _ _ _ _ hseed]
  apply joinCluster.range_fatal_of_dial self env addr err hda _ _ hlisted
  · simpa using hne
  · simp [mapGet_mapSet_ne _ _ _ _ hns, habs]

/-! ## The self entry while serving -/

theorem mapGet_mapDelete_ne {β : Type} (m : List (String × β)) (a k : String) (h : k ≠ a) :
    mapGet (mapDelete m a) k = mapGet m k := by
  unfold mapDelete
  induction m with
  | nil => rfl
  | cons e rest ih =>
    obtain ⟨k1, v1⟩ := e
    by_cases h1 : k1 = a
    · subst h1
      rw [List.filter_cons_of_neg (by simp)]
      simpa [mapGet, Ne.symm h] using ih
    · rw [List.filter_cons_of_pos (by simp [h1])]
      by_cases h2 : k1 = k
      · simp [mapGet, h2]
      · simpa [mapGet, h2] using ih

theorem mapWF_sublist {β : Type} (m m' : List (String × β)) (hs : m'.Sublist m)
    (h : mapWF m) : mapWF m' :=
  List.Nodup.sublist (hs.map Prod.fst) h

theorem mapWF_mapSet {β : Type} (m : List (String × β)) (k : String) (v : β)
    (h : mapWF m) : mapWF (mapSet m k v) := by
  induction m with
  | nil => simp [mapSet, mapWF]
  | cons e rest ih =>
    obtain ⟨k1, v1⟩ := e
    simp only [mapWF, List.map_cons, List.nodup_cons] at h
    by_cases h1 : k1 = k
    · subst h1
      simpa [mapSet, mapWF] using h
    · simp only [mapSet, h1, if_false, mapWF, List.map_cons, List.nodup_cons]
      refine ⟨?_, ih h.2⟩
      intro hk
      rcases (mem_keys_mapSet rest k k1 v).1 hk with hk | hk
      · exact h1 hk
      · exact h.1 hk

theorem mapGet_perm {β : Type} (m m' : List (String × β)) (hp : m'.Perm m) (h : mapWF m)
    (k : String) : mapGet m' k = mapGet m k := by
  have h' : mapWF m' := (hp.map Prod.fst).nodup_iff.2 h
  cases hg : mapGet m k with
  | none =>
    rw [mapGet_eq_none_iff] at *
    intro hk
    exact hg ((hp.map Prod.fst).mem_iff.1 hk)
  | some v =>
    exact mapGet_of_mem m' h' k v (hp.mem_iff.2 (mem_of_mapGet m k v hg))

theorem Write_peers_eq (w : World) (self k v : String) (env : Env) :
    ((Write w self k v env).1.nodes self).peers =
      ((Write.range self k v env (w.nodes self).peers w).1.nodes self).peers := by
  cases hr : (Write.range self k v env (w.nodes self).peers w).2 with
  | none => rw [Write_of_none w self k v env hr]; simp
  | some err => rw [Write_of_some w self k v env err hr]

theorem Write.range_sublist (self k v : String) (env : Env)
    (it : List (String × Option KeystoneClient)) (w : World) :
    ((Write.range self k v env it w).1.nodes self).peers.Sublist (w.nodes self).peers := by
  refine Write.range_rel self k v env
    (fun w w' => ((w'.nodes self).peers.Sublist (w.nodes self).peers)) (fun _ _ => True)
    (fun _ => List.Sublist.refl _) (fun _ _ _ h1 h2 => h2.trans h1) ?_ ?_ it w
    (fun _ _ _ => trivial)
  · intro w _ p _; rw [stub_ServerWrite_peers]
  · intro w b _ _
    simp only [setNode_nodes_self, mapDelete]
    exact List.filter_sublist _

theorem Write.range_self_entry (self k v : String) (env : Env)
    (it : List (String × Option KeystoneClient)) (w : World)
    (hit : ∀ a p, (a, some p) ∈ it → a ≠ self)
    (h : mapGet (w.nodes self).peers self = some none) :
    mapGet ((Write.range self k v env it w).1.nodes self).peers self = some none := by
  refine Write.range_rel self k v env
    (fun w w' => (mapGet (w.nodes self).peers self = some none →
      mapGet (w'.nodes self).peers self = some none)) (fun a _ => a ≠ self)
    (fun _ h => h) (fun _ _ _ h1 h2 h => h2 (h1 h)) ?_ ?_ it w hit h
  · intro w _ p _ h; rwa [stub_ServerWrite_peers]
  · intro w b _ hb h
    simp only [setNode_nodes_self]
    rwa [mapGet_mapDelete_ne _ _ _ (Ne.symm hb)]

/-- A request other than a Join that connects to the node's own address keeps the
self entry. -/
theorem handle_selfEntry (w : World) (self : String) (env : Env) (r : Request)
    (hjoin : r = Request.Join self → ∃ e, env.dial self self = .error e)
    (h : selfEntry w self) : selfEntry (handle w self env r) self := by
  cases r with
  | Read key => exact h
  | GetClusterInfo => exact h
  | ServerWrite key value => simpa [handle, ServerWrite, selfEntry] using h
  | Write key value =>
    unfold selfEntry handle
    simp only
    rw [Write_peers_eq]
    refine ⟨mapWF_sublist _ _ (Write.range_sublist self key value env _ w) h.1,
      Write.range_self_entry self key value env _ w ?_ h.2⟩
    intro a p hm ha
    subst ha
    have := mapGet_of_mem _ h.1 _ _ hm
    rw [h.2] at this
    cases this
  | Join a =>
    unfold selfEntry handle Join connectPeer
    cases hd : env.dial self a with
    | error e => simpa [hd, selfEntry] using h
    | ok conn =>
      have hne : self ≠ a := by
        rintro rfl
        obtain ⟨e, he⟩ := hjoin rfl
        rw [he] at hd
        cases hd
      simp only [hd, setNode_nodes_self, record_nodes]
      exact ⟨mapWF_mapSet _ _ _ h.1, by rw [mapGet_mapSet_ne _ _ _ _ hne]; exact h.2⟩

theorem serve_selfEntry (self : String) (steps : List Step) :
    ∀ (w : World),
      (∀ s ∈ steps, s.request = Request.Join self → ∃ e, s.env.dial self self = .error e) →
      selfEntry w self → selfEntry (serve self steps w) self := by
  induction steps with
  | nil => intro w _ h; exact h
  | cons s rest ih =>
    intro w hjoin h
    simp only [serve]
    apply ih _ (fun s' hs' => hjoin s' (List.mem_cons_of_mem _ hs'))
    apply handle_selfEntry _ self s.env s.request (hjoin s (List.mem_cons_self _ _))
    unfold selfEntry
    simp only [setNode_nodes_self]
    have hp := rearrange_perm s.order (w.nodes self).peers
    exact ⟨(hp.map Prod.fst).nodup_iff.2 h.1, by rw [mapGet_perm _ _ hp h.1]; exact h.2⟩

/-- A node that started alone keeps its own address mapped to no handle for as long
as no Join naming its own address connects. -/
theorem self_entry_kept_without_own_Join (w : World) (address prog : String) (env : Env)
    (steps : List Step)
    (hjoin : ∀ s ∈ steps,
      s.request = Request.Join address → ∃ e, s.env.dial address address = .error e) :
    mapGet ((serve address steps (main w address [prog] env).1).nodes address).peers address =
      some none := by
  refine (serve_selfEntry address steps _ hjoin ?_).2
  simp [main, selfEntry, mapWF, mapGet]

/-! ## Read, GetClusterInfo, Join and ServerWrite, one call at a time -/

/-- C13: Read of a key that the store lacks returns the empty string and a nil error;
Read of a key in the store returns the stored value and a nil error; Read leaves the
world, and with it the store and the registry of the node, unchanged. -/
theorem Read_local (w : World) (self k : String) :
    (mapGet (w.nodes self).dstore k = none → (Read w self k).2 = ("", none)) ∧
    (∀ v, mapGet (w.nodes self).dstore k = some v → (Read w self k).2 = (v, none)) ∧
    ((Read w self k).1.nodes self).dstore = (w.nodes self).dstore ∧
    ((Read w self k).1.nodes self).peers = (w.nodes self).peers ∧
    (Read w self k).1 = w := by
  refine ⟨?_, ?_, rfl, rfl, rfl⟩
  · intro h; simp [Read, h]
  · intro v h; simp [Read, h]

/-- C13 at a node that holds the key x and lacks the key q. -/
theorem Read_local_witness :
    (Read World.three "N" "q").2 = ("", none) ∧ (Read World.three "N" "x").2 = ("1", none) :=
  ⟨(Read_local World.three "N" "q").1 (by decide),
    (Read_local World.three "N" "x").2.1 "1" (by decide)⟩

theorem mapGet_ne_none_iff {β : Type} (m : List (String × β)) (k : String) :
    mapGet m k ≠ none ↔ k ∈ m.map Prod.fst := by
  rw [Ne, mapGet_eq_none_iff, not_not]

/-- C12: when connecting to the address succeeds, Join returns a nil error and the
registry afterwards maps the address to the new handle and is unchanged on every
other address; when connecting fails, Join returns that error and the registry is
unchanged; in both cases the store is unchanged. -/
theorem Join_registers (w : World) (self a : String) (env : Env) :
    (∀ conn, env.dial self a = .ok conn →
      (Join w self a env).2 = none ∧
      mapGet ((Join w self a env).1.nodes self).peers a = some (some ⟨a, conn⟩) ∧
      ∀ k, k ≠ a → mapGet ((Join w self a env).1.nodes self).peers k =
        mapGet (w.nodes self).peers k) ∧
    (∀ err, env.dial self a = .error err →
      (Join w self a env).2 = some err ∧
      ((Join w self a env).1.nodes self).peers = (w.nodes self).peers) ∧
    ((Join w self a env).1.nodes self).dstore = (w.nodes self).dstore := by
  refine ⟨?_, ?_, (Join_node w self a env self).1⟩
  · intro conn hd
    unfold Join connectPeer
    simp only [hd, setNode_nodes_self, record_nodes, true_and]
    exact ⟨mapGet_mapSet_self _ _ _, fun k hk => mapGet_mapSet_ne _ _ _ _ hk⟩
  · intro err hd
    unfold Join connectPeer
    simp [hd]

/-- C12 at a node that is joined by R, with the connection set up and with the
connection failing. -/
theorem Join_registers_witness :
    mapGet ((Join World.three "N" "R" Env.calm).1.nodes "N").peers "R" = some (some ⟨"R", 7⟩) ∧
    (Join World.three "N" "R" Env.deaf).2 = some "grpc: no transport security set" ∧
    ((Join World.three "N" "R" Env.deaf).1.nodes "N").peers = (World.three.nodes "N").peers :=
  ⟨((Join_registers World.three "N" "R" Env.calm).1 7 rfl).2.1,
    ((Join_registers World.three "N" "R" Env.deaf).2.1 _ rfl).1,
    ((Join_registers World.three "N" "R" Env.deaf).2.1 _ rfl).2⟩

theorem mapSet_mapSet {β : Type} (m : List (String × β)) (k : String) (v v' : β) :
    mapSet (mapSet m k v) k v' = mapSet m k v' := by
  induction m with
  | nil => simp [mapSet]
  | cons e rest ih =>
    obtain ⟨k1, v1⟩ := e
    by_cases h1 : k1 = k
    · subst h1; simp [mapSet]
    · simp [mapSet, h1, ih]

theorem keys_mapSet_mapSet {β : Type} (m : List (String × β)) (k : String) (v v' : β) :
    (mapSet (mapSet m k v) k v').map Prod.fst = (mapSet m k v).map Prod.fst := by
  induction m with
  | nil => simp [mapSet]
  | cons e rest ih =>
    obtain ⟨k1, v1⟩ := e
    by_cases h1 : k1 = k
    · subst h1; simp [mapSet]
    · simp [mapSet, h1, ih]

/-- C11: a second ServerWrite of the same key and value changes nothing: the nodes of
the world (stores and registries) and the call log are as after the first.  A second
Join of the same address, both connections succeeding, leaves the addresses of the
registry as after the first (the same addresses in the same places) and its entries
for every other address unchanged; the entry of the address holds the handle of the
second connection. -/
theorem ServerWrite_Join_idempotent (w : World) (self k v a : String) (env₁ env₂ : Env)
    (c₁ c₂ : Nat) (h₁ : env₁.dial self a = .ok c₁) (h₂ : env₂.dial self a = .ok c₂) :
    (ServerWrite (ServerWrite w self k v).1 self k v).1.nodes = (ServerWrite w self k v).1.nodes ∧
    (ServerWrite (ServerWrite w self k v).1 self k v).1.log = (ServerWrite w self k v).1.log ∧
    keys ((Join (Join w self a env₁).1 self a env₂).1.nodes self).peers =
      keys ((Join w self a env₁).1.nodes self).peers ∧
    (∀ x, x ≠ a → mapGet ((Join (Join w self a env₁).1 self a env₂).1.nodes self).peers x =
      mapGet ((Join w self a env₁).1.nodes self).peers x) ∧
    mapGet ((Join (Join w self a env₁).1 self a env₂).1.nodes self).peers a =
      some (some ⟨a, c₂⟩) := by
  refine ⟨?_, rfl, ?_, ?_, ?_⟩
  · funext x
    by_cases hx : x = self
    · subst hx; simp [ServerWrite, mapSet_mapSet]
    · simp [ServerWrite, setNode_nodes_ne _ _ _ _ hx]
  · simp only [Join, connectPeer, h₁, h₂, setNode_nodes_self, record_nodes, keys]
    exact keys_mapSet_mapSet _ _ _ _
  · intro x hx
    simp only [Join, connectPeer, h₁, h₂, setNode_nodes_self, record_nodes]
    rw [mapGet_mapSet_ne _ _ _ _ hx]
  · simp only [Join, connectPeer, h₁, h₂, setNode_nodes_self, record_nodes]
    exact mapGet_mapSet_self _ _ _

/-- C11 at a node that is joined twice by R, on the connections 7 and 8. -/
theorem ServerWrite_Join_idempotent_witness :
    (ServerWrite (ServerWrite World.three "N" "k" "v").1 "N" "k" "v").1.nodes =
      (ServerWrite World.three "N" "k" "v").1.nodes ∧
    keys ((Join (Join World.three "N" "R" Env.calm).1 "N" "R" Env.again).1.nodes "N").peers =
      ["N", "P", "Q", "R"] ∧
    mapGet ((Join (Join World.three "N" "R" Env.calm).1 "N" "R" Env.again).1.nodes "N").peers "R" =
      some (some ⟨"R", 8⟩) :=
  have h := ServerWrite_Join_idempotent World.three "N" "k" "v" "R" Env.calm Env.again 7 8 rfl rfl
  ⟨h.1, h.2.2.1.trans (by decide), h.2.2.2.2⟩

/-! ## The listener -/

theorem listenerOnUnusedPort.range_inUse (host : String) (listen : String → Except String Nat)
    (left : Nat) (port : Int) (h : portInUse host listen port) :
    listenerOnUnusedPort.range host listen (left + 1) port =
      listenerOnUnusedPort.range host listen left (port + 1) := by
  obtain ⟨err, he, hc⟩ := h
  simp [listenerOnUnusedPort.range, he, hc]

/-- The loop, when the first `j` ports are in use and the next one is still to try. -/
theorem listenerOnUnusedPort.range_skip (host : String) (listen : String → Except String Nat) :
    ∀ (j left : Nat) (port : Int),
      (∀ i : Nat, i < j → portInUse host listen (port + i)) →
      listenerOnUnusedPort.range host listen (left + j) port =
        listenerOnUnusedPort.range host listen left (port + j) := by
  intro j
  induction j with
  | zero => intro left port _; simp
  | succ j ih =>
    intro left port h
    have h0 : portInUse host listen port := by simpa using h 0 (Nat.succ_pos j)
    rw [← Nat.add_assoc, listenerOnUnusedPort.range_inUse host listen (left + j) port h0,
      ih left (port + 1)]
    · congr 1; push_cast; ring
    · intro i hi
      have := h (i + 1) (Nat.succ_lt_succ hi)
      have e : port + 1 + (i : Int) = port + ((i + 1 : Nat) : Int) := by push_cast; ring
      rw [e]; exact this

/-- A successful result of the loop names a port it tried, all ports before it being
in use. -/
theorem listenerOnUnusedPort.range_ok (host : String) (listen : String → Except String Nat) :
    ∀ (left : Nat) (port : Int),
      (listenerOnUnusedPort.range host listen left port).2.2 = none →
      ∃ (j : Nat) (lis : Nat), j < left ∧
        (∀ i : Nat, i < j → portInUse host listen (port + i)) ∧
        listen (host ++ ":" ++ toString (port + j)) = .ok lis ∧
        listenerOnUnusedPort.range host listen left port =
          (host ++ ":" ++ toString (port + j), some lis, none) := by
  intro left
  induction left with
  | zero => intro port h; simp [listenerOnUnusedPort.range] at h
  | succ left ih =>
    intro port h
    cases hl : listen (host ++ ":" ++ toString port) with
    | ok lis =>
      refine ⟨0, lis, Nat.succ_pos _, by simp, by simpa using hl, ?_⟩
      simp [listenerOnUnusedPort.range, hl]
    | error err =>
      cases hc : strings.Contains err "bind: address already in use" with
      | false => simp [listenerOnUnusedPort.range, hl, hc] at h
      | true =>
        have h0 : portInUse host listen port := ⟨err, hl, hc⟩
        rw [listenerOnUnusedPort.range_inUse host listen left port h0] at h ⊢
        obtain ⟨j, lis, hj, hin, hok, hres⟩ := ih (port + 1) h
        have e : port + 1 + (j : Int) = port + ((j + 1 : Nat) : Int) := by push_cast; ring
        refine ⟨j + 1, lis, Nat.succ_lt_succ hj, ?_, by rw [← e]; exact hok, by rw [← e]; exact hres⟩
        intro i hi
        cases i with
        | zero => simpa using h0
        | succ i =>
          have := hin i (Nat.lt_of_succ_lt_succ hi)
          have e' : port + 1 + (i : Int) = port + ((i + 1 : Nat) : Int) := by push_cast; ring
          rw [← e']; exact this

theorem toNat_split (start bound p : Int) (h₁ : start ≤ p) (h₂ : p < bound) :
    (bound - start).toNat = ((bound - p).toNat - 1) + 1 + (p - start).toNat ∧
    start + ((p - start).toNat : Int) = p := by
  omega

/-- C17 as stated fails: listening on the first port of the range fails with an
error other than "address already in use", listening would succeed on the next port
of the range, and `listenerOnUnusedPort` returns the error of the first port. -/
theorem listenerOnUnusedPort_bails_out :
    listenDenied "localhost:1989" =
      .error "listen tcp localhost:1989: bind: permission denied" ∧
    listenDenied "localhost:1990" = .ok 3 ∧
    listenerOnUnusedPort host startingPort portRange listenDenied =
      ("", none, some "listen tcp localhost:1989: bind: permission denied") :=
  ⟨rfl, rfl, by decide⟩

/-- C17, amended: with `bound` the sum `start + max` in the arithmetic of `int`,
`listenerOnUnusedPort` returns the address `host:p` and the listener of the smallest
port `p` of `[start, bound)` on which listening succeeds, provided listening on every
lower port of the range fails with "address already in use"; it returns the error of
the first port whose listening fails otherwise, and the error "Failed to find unused
port in range" when every port of the range is in use; a result without an error
names a port of the range on which listening succeeded. -/
theorem listenerOnUnusedPort_first_free (host : String) (start max : Int)
    (listen : String → Except String Nat) :
    (∀ p lis, start ≤ p → p < int64 (start + max) →
      (∀ q, start ≤ q → q < p → portInUse host listen q) →
      listen (host ++ ":" ++ toString p) = .ok lis →
      listenerOnUnusedPort host start max listen = (host ++ ":" ++ toString p, some lis, none)) ∧
    (∀ p err, start ≤ p → p < int64 (start + max) →
      (∀ q, start ≤ q → q < p → portInUse host listen q) →
      listen (host ++ ":" ++ toString p) = .error err →
      strings.Contains err "bind: address already in use" = false →
      listenerOnUnusedPort host start max listen = ("", none, some err)) ∧
    ((∀ q, start ≤ q → q < int64 (start + max) → portInUse host listen q) →
      listenerOnUnusedPort host start max listen =
        ("", none, some "Failed to find unused port in range")) ∧
    ((listenerOnUnusedPort host start max listen).2.2 = none →
      ∃ p lis, start ≤ p ∧ p < int64 (start + max) ∧
        listen (host ++ ":" ++ toString p) = .ok lis ∧
        (∀ q, start ≤ q → q < p → portInUse host listen q) ∧
        listenerOnUnusedPort host start max listen =
          (host ++ ":" ++ toString p, some lis, none)) := by
  have skip : ∀ p, start ≤ p → p < int64 (start + max) →
      (∀ q, start ≤ q → q < p → portInUse host listen q) →
      listenerOnUnusedPort host start max listen =
        listenerOnUnusedPort.range host listen ((int64 (start + max) - p).toNat - 1 + 1) p := by
    intro p h₁ h₂ hlow
    obtain ⟨e₁, e₂⟩ := toNat_split start (int64 (start + max)) p h₁ h₂
    unfold listenerOnUnusedPort
    rw [e₁, listenerOnUnusedPort.range_skip host listen _ _ start, e₂]
    intro i hi
    exact hlow _ (by omega) (by omega)
  refine ⟨?_, ?_, ?_, ?_⟩
  · intro p lis h₁ h₂ hlow hl
    rw [skip p h₁ h₂ hlow]
    simp [listenerOnUnusedPort.range, hl]
  · intro p err h₁ h₂ hlow hl hc
    rw [skip p h₁ h₂ hlow]
    simp [listenerOnUnusedPort.range, hl, hc]
  · intro hall
    unfold listenerOnUnusedPort
    have := listenerOnUnusedPort.range_skip host listen
      (int64 (start + max) - start).toNat 0 start
      (fun i hi => hall _ (by omega) (by omega))
    rw [Nat.zero_add] at this
    rw [this]
    rfl
  · intro hok
    obtain ⟨j, lis, hj, hin, hl, hres⟩ :=
      listenerOnUnusedPort.range_ok host listen _ start hok
    refine ⟨start + j, lis, by omega, by omega, hl, ?_, hres⟩
    intro q h₁ h₂
    have := hin (q - start).toNat (by omega)
    have e : start + ((q - start).toNat : Int) = q := by omega
    rwa [e] at this

/-- C17, amended, at a host whose first two ports of the range are in use. -/
theorem listenerOnUnusedPort_first_free_witness :
    listenerOnUnusedPort host startingPort portRange listenBusy =
      ("localhost:1991", some 3, none) :=
  (listenerOnUnusedPort_first_free host startingPort portRange listenBusy).1 1991 3
    (by decide) (by decide)
    (by
      intro q h₁ h₂
      have hq : q = 1989 ∨ q = 1990 := by
        simp only [startingPort] at h₁
        omega
      rcases hq with rfl | rfl
      · exact ⟨_, rfl, by decide⟩
      · exact ⟨_, rfl, by decide⟩)
    rfl

/-! ## Joining: the calls of the fan-out -/

theorem callsBy_append (c : String) (l₁ l₂ : List (String × Call)) :
    callsBy c (l₁ ++ l₂) = callsBy c l₁ ++ callsBy c l₂ := by
  simp [callsBy]

theorem stub_Join_log (peer : KeystoneClient) (w : World) (c a : String) (env : Env) :
    ∃ extra, (peer.Join w c a env).1.log = w.log ++ (c, Call.Join peer a) :: extra ∧
      ∀ x ∈ extra, x.1 = peer.target := by
  unfold KeystoneClient.Join Join connectPeer
  cases env.fault c (Call.Join peer a) with
  | none =>
    cases env.dial peer.target a with
    | error e => exact ⟨[(peer.target, Call.Dial a)], by simp, by simp⟩
    | ok conn => exact ⟨[(peer.target, Call.Dial a)], by simp, by simp⟩
  | some f =>
    cases hd : f.delivered with
    | false => exact ⟨[], by simp [hd], by simp⟩
    | true =>
      cases env.dial peer.target a with
      | error e => exact ⟨[(peer.target, Call.Dial a)], by simp [hd], by simp⟩
      | ok conn => exact ⟨[(peer.target, Call.Dial a)], by simp [hd], by simp⟩

theorem stub_Join_callsBy (peer : KeystoneClient) (w : World) (c a : String) (env : Env)
    (hp : peer.target ≠ c) :
    callsBy c (peer.Join w c a env).1.log = callsBy c w.log ++ [Call.Join peer a] := by
  obtain ⟨extra, hlog, hex⟩ := stub_Join_log peer w c a env
  rw [hlog, callsBy_append]
  congr 1
  have : extra.filter (fun x => decide (x.1 = c)) = [] := by
    rw [List.filter_eq_nil_iff]
    intro x hx
    simp [hex x hx, hp]
  simp [callsBy, List.filter_cons, this]

theorem joinCluster.calls_congr (self : String) (conn : String → Nat)
    (peers peers' : List (String × Option KeystoneClient)) (l : List String)
    (h : ∀ a ∈ l, mapGet peers' a = mapGet peers a) :
    l.flatMap (joinCluster.calls self conn peers') = l.flatMap (joinCluster.calls self conn peers) := by
  induction l with
  | nil => rfl
  | cons a rest ih =>
    rw [List.flatMap_cons, List.flatMap_cons, ih (fun b hb => h b (List.mem_cons_of_mem _ hb))]
    congr 1
    unfold joinCluster.calls
    rw [h a (List.mem_cons_self _ _)]

/-- The calls that a joining node issues during the fan-out over a view without
repetitions, every dial of the node succeeding. -/
theorem joinCluster.range_calls (self : String) (env : Env) (conn : String → Nat)
    (hdial : ∀ a, env.dial self a = .ok (conn a)) :
    ∀ (view : List String) (w : World), joining w self → view.Nodup →
      (joinCluster.range self env view w).2 = none ∧
      callsBy self (joinCluster.range self env view w).1.log =
        callsBy self w.log ++
          (view.filter (fun a => a ≠ self)).flatMap
            (joinCluster.calls self conn (w.nodes self).peers) := by
  intro view
  induction view with
  | nil => intro w _ _; simp [joinCluster.range]
  | cons addr rest ih =>
    intro w hw hnd
    have hnd' := (List.nodup_cons.1 hnd).2
    have hnotin := (List.nodup_cons.1 hnd).1
    by_cases h : addr = (w.nodes self).address
    · rw [joinCluster.range_cons_self _ _ _ _ _ h]
      have hs : addr = self := by rw [h, hw.1]
      rw [List.filter_cons_of_neg (by simp [hs])]
      exact ih w hw hnd'
    · have hne : addr ≠ self := by rw [hw.1] at h; exact h
      rw [List.filter_cons_of_pos (by simp [hne]), List.flatMap_cons]
      cases hg : mapGet (w.nodes self).peers addr with
      | some o =>
        obtain ⟨c, hc⟩ := hw.2 addr o hg hne
        subst hc
        rw [joinCluster.range_cons_known _ _ _ _ _ _ h hg, hw.1]
        have hw2 := joining_after_Join w self ⟨addr, c⟩ self env hne hw
        obtain ⟨i1, i2⟩ := ih _ hw2 hnd'
        refine ⟨i1, ?_⟩
        rw [i2, stub_Join_callsBy ⟨addr, c⟩ w self self env hne,
          (stub_Join_node ⟨addr, c⟩ w self self env self).2.2.1 (Ne.symm hne)]
        simp [joinCluster.calls, hg]
      | none =>
        rw [joinCluster.range_cons_new _ _ _ _ _ (conn addr) h hg (hdial addr), hw.1]
        have hw1 := joining_after_register w self addr (conn addr) hw
        have hw2 := joining_after_Join _ self ⟨addr, conn addr⟩ self env hne hw1
        obtain ⟨i1, i2⟩ := ih _ hw2 hnd'
        refine ⟨i1, ?_⟩
        rw [i2, stub_Join_callsBy ⟨addr, conn addr⟩ _ self self env hne,
          (stub_Join_node ⟨addr, conn addr⟩ _ self self env self).2.2.1 (Ne.symm hne)]
        simp only [setNode_log, record_log, setNode_nodes_self, callsBy_append]
        rw [joinCluster.calls_congr self conn (w.nodes self).peers _ _ (fun a ha => by
          have : a ≠ addr := by
            rintro rfl
            exact hnotin (List.mem_of_mem_filter ha)
          exact mapGet_mapSet_ne _ _ _ _ this)]
        simp [joinCluster.calls, hg, callsBy]

theorem joinCluster.calls_cases (w : World) (self : String) (conn : String → Nat) (a : String)
    (hj : joining w self) (ha : a ≠ self) :
    (∃ c, mapGet (w.nodes self).peers a = some (some ⟨a, c⟩) ∧
      joinCluster.calls self conn (w.nodes self).peers a = [Call.Join ⟨a, c⟩ self]) ∨
    (mapGet (w.nodes self).peers a = none ∧
      joinCluster.calls self conn (w.nodes self).peers a =
        [Call.Dial a, Call.Join ⟨a, conn a⟩ self]) := by
  cases hg : mapGet (w.nodes self).peers a with
  | none => exact Or.inr ⟨rfl, by simp [joinCluster.calls, hg]⟩
  | some o =>
    obtain ⟨c, hc⟩ := hj.2 a o hg ha
    subst hc
    exact Or.inl ⟨c, rfl, by simp [joinCluster.calls, hg]⟩

end Server

namespace Client

/-! ## Dispatch of the client -/

/-- C15 at the failing input: the command line gives a value argument, the empty
string, and the client issues Read of the key, not Write; with a value argument that
is not empty it issues Write. -/
theorem main_reads_on_empty_value :
    (main ["client", "localhost:1989", "k", ""] Env.up).calls = [Rpc.Read "k"] ∧
    (main ["client", "localhost:1989", "k", "v"] Env.up).calls = [Rpc.Write "k" "v"] := by
  decide

/-- The dispatch of the client once the connection is set up: no RPC with fewer
than two arguments; Read of the key when the value argument is absent or empty;
Write of the key and the value when the value argument is not empty. -/
theorem main_dispatch (prog server key value : String) (env : Env)
    (hd : env.dial server = none) :
    (main [] env).calls = [] ∧ (main [prog] env).calls = [] ∧
    (main [prog, server] env).calls = [] ∧
    (main [prog, server, key] env).calls = [Rpc.Read key] ∧
    (0 < value.length → (main [prog, server, key, value] env).calls = [Rpc.Write key value]) ∧
    (value.length = 0 → (main [prog, server, key, value] env).calls = [Rpc.Read key]) := by
  refine ⟨rfl, rfl, rfl, ?_, ?_, ?_⟩
  · simp only [main, List.length_cons, List.length_nil, List.getD_cons_succ, List.getD_cons_zero,
      hd, failOnErr]
    simp only [readAndPrint]
    cases env.read key <;> simp
  · intro hv
    simp only [main, List.length_cons, List.length_nil, List.getD_cons_succ, List.getD_cons_zero,
      hd, failOnErr]
    simp only [writeAndPrint]
    cases hw : env.write key value <;> simp [hv, failOnErr, hw]
  · intro hv
    simp only [main, List.length_cons, List.length_nil, List.getD_cons_succ, List.getD_cons_zero,
      hd, failOnErr]
    simp only [readAndPrint]
    cases env.read key <;> simp [hv]

end Client
